import Mathlib

/-!
Verification development for the depWeaver dependency-injection container
(Go repository `binodta/depWeaver`).

The definitions below are a shallow embedding of the container's core:

* `resolveWithScope`, `resolveSingleton`, `resolveTransient`, `resolveScoped`
  and `formatDependencyChain` follow `internal/container/resolver.go`;
* the wrapped constructors produced by `RegisterConstructorWithScope` /
  `RegisterNamedConstructorWithScope` (registration file, see
  `OverrideConstructor` there as well) are `invokeCtor` / `invokeCtorNamed`;
* `resolveNamedWithScope`, `resolveNamedSingleton`, `resolveNamedScoped`
  follow the named-resolution file;
* `containerValidate` / `validateNode` follow `internal/container/validation.go`;
* `destroyScope`, `destroyAllScopes` follow `internal/container/scope.go`;
* `diResolve` follows `pkg/di/resolve.go` and `providerGet` the provider file.

Modelling conventions:

* Go `reflect.Type` handles become `Ty` (a name plus an interface-kind flag);
  `t.String()` is `Ty.name`.
* Go maps become association lists with map semantics (`alookup` / `aupsert`
  / `aremove`); iteration order of a Go map is unspecified, the model fixes
  the stored list order.
* The container is single-threaded here: locks disappear, and the
  `inProgress`-wait branch of `resolveSingleton` (which in Go blocks on
  another goroutine's channel) is rendered as the distinguished error
  `Err.wouldBlock`; sequentially that branch is unreachable from a container
  whose `inProgress` set is empty.
* User constructors are modelled semantically: a `CtorBehavior` says, per
  invocation index, whether the Go constructor returns a fresh value, a nil
  interface value, or a non-nil error.  The container state carries a ghost
  invocation log (`DC.log`, the closure identities invoked, in order) and a
  ghost `DC.fresh` counter stamping constructed values; neither exists in
  the Go source, they only make invocation counts and instance identity
  expressible.
* Recursive resolution in Go terminates by cycle detection; the embedding
  makes this explicit with a fuel parameter, exhausted fuel returning the
  model-only error `Err.outOfFuel`.
-/

/-- Semantic type handle: models a `reflect.Type`.  `name` plays the role of
`t.String()`, `isIface` the role of `t.Kind() == reflect.Interface`. -/
structure Ty where
  name : String
  isIface : Bool
deriving DecidableEq, Repr

/-- Renders a type handle the way Go prints it (`t.String()`). -/
def tyStr (t : Ty) : String := t.name

/-- Lifetime scope of a registration (container package `Scope`). -/
inductive Scope where
  | Singleton
  | Transient
  | Scoped
deriving DecidableEq, Repr

/-- Runtime value produced by a constructor.  `nil` models the Go nil
interface value; `obj t stamp cid` models a non-nil value of dynamic type
`t` built by the constructor with closure identity `cid`; the ghost `stamp`
gives every constructed value a distinct identity (Go: a fresh allocation).
The fields the real object would hold are irrelevant to the claims and are
not modelled. -/
inductive Val where
  | nil
  | obj (t : Ty) (stamp : Nat) (cid : Nat)
deriving DecidableEq, Repr

/-- Result of one invocation of a user constructor: a fresh value, a Go nil
interface value, or a non-nil error (the error payload is an opaque code). -/
inductive CtorResult where
  | value
  | nilValue
  | failure (code : Nat)
deriving DecidableEq, Repr

/-- Semantic behaviour of a user constructor, by invocation index; past the
end of `plan` the constructor returns fresh values.  `⟨[]⟩` is an ordinary
always-succeeding constructor. -/
structure CtorBehavior where
  plan : List CtorResult
deriving DecidableEq, Repr

/-- Behaviour of invocation number `k` (0-based). -/
def CtorBehavior.resultAt (b : CtorBehavior) (k : Nat) : CtorResult :=
  b.plan.getD k .value

/-- Errors of the container core.  Each constructor corresponds to one
`fmt.Errorf` site of the Go source; payloads carry the formatted data.
`outOfFuel` and `wouldBlock` are artifacts of the sequential embedding (see
the header comment). -/
inductive Err where
  | outOfFuel
  | wouldBlock (t : Ty)
  | noCtor (t : Ty)
  | noCtorNamed (t : Ty) (name : String)
  | circular (chain : String)
  | scopeRequired (t : Ty)
  | scopeRequiredNamed (t : Ty) (name : String)
  | noBindingIface (t : Ty)
  | noBindingNamed (t : Ty) (name : String)
  | paramResolve (argType : Ty) (idx : Nat) (inner : Err)
  | paramResolveNamed (argType : Ty) (name : String) (inner : Err)
  | goErr (code : Nat)
deriving DecidableEq, Repr

/-- Strips the parameter-resolution wrappers that the wrapped constructors
put around a propagated error (Go `%w` wrapping), exposing the root cause. -/
def rootCause : Err → Err
  | .paramResolve _ _ inner => rootCause inner
  | .paramResolveNamed _ _ inner => rootCause inner
  | e => e

/-- One registration: the data captured by the Go `Registration` struct and
by the wrapped-constructor closure.  `cid` is the ghost identity of the
closure (used by the invocation log), `behavior` the semantics of the user
constructor, `paramTypes` its declared parameter types. -/
structure Registration where
  cid : Nat
  behavior : CtorBehavior
  scope : Scope
  paramTypes : List Ty
deriving DecidableEq, Repr

/-- Association-list lookup with Go-map semantics (unique keys). -/
def alookup {α β : Type} [DecidableEq α] : List (α × β) → α → Option β
  | [], _ => none
  | (k, v) :: rest, a => if k = a then some v else alookup rest a

/-- Association-list insert-or-replace (Go `m[k] = v`). -/
def aupsert {α β : Type} [DecidableEq α] : List (α × β) → α → β → List (α × β)
  | [], a, b => [(a, b)]
  | (k, v) :: rest, a, b => if k = a then (a, b) :: rest else (k, v) :: aupsert rest a b

/-- Association-list delete (Go `delete(m, k)`). -/
def aremove {α β : Type} [DecidableEq α] (l : List (α × β)) (a : α) : List (α × β) :=
  l.filter (fun p => p.1 ≠ a)

/-- The dependency container (`DependencyContainer` struct).  `log` and
`fresh` are ghost instrumentation, see the header comment. -/
structure DC where
  constructors : List (Ty × Registration)
  dependencies : List (Ty × Val)
  scopedInstances : List (String × List (Ty × Val))
  inProgress : List Ty
  interfaceBindings : List (Ty × Ty)
  namedInterfaceBindings : List (String × List (Ty × Ty))
  namedConstructors : List (String × List (Ty × Registration))
  namedDependencies : List (String × List (Ty × Val))
  namedScopedInstances : List (String × List (String × List (Ty × Val)))
  log : List Nat
  fresh : Nat
deriving DecidableEq, Repr

/-- The empty container (`container.New()`). -/
def newDC : DC :=
  { constructors := [], dependencies := [], scopedInstances := [], inProgress := [],
    interfaceBindings := [], namedInterfaceBindings := [], namedConstructors := [],
    namedDependencies := [], namedScopedInstances := [], log := [], fresh := 0 }

/-- Go `GetInterfaceBinding`. -/
def getInterfaceBinding (dc : DC) (t : Ty) : Option Ty :=
  alookup dc.interfaceBindings t

/-- Go `GetNamedInterfaceBinding`. -/
def getNamedInterfaceBinding (dc : DC) (name : String) (t : Ty) : Option Ty :=
  match alookup dc.namedInterfaceBindings name with
  | none => none
  | some bindings => alookup bindings t

/-- Lookup in one scope partition of the unnamed scoped cache. -/
def scopedLookup (dc : DC) (scopeID : String) (t : Ty) : Option Val :=
  match alookup dc.scopedInstances scopeID with
  | none => none
  | some part => alookup part t

/-- Go `formatDependencyChain` (resolver.go): renders the whole resolution
stack followed by the repeated type. -/
def formatDependencyChain (circularType : Ty) (stack : List Ty) : String :=
  if stack = [] then
    tyStr circularType ++ " -> " ++ tyStr circularType ++ " (circular)"
  else
    joinArrow stack ++ " -> " ++ tyStr circularType
where
  /-- The `for i, t := range stack` loop joining with " -> ". -/
  joinArrow : List Ty → String
    | [] => ""
    | [t] => tyStr t
    | t :: rest => tyStr t ++ " -> " ++ joinArrow rest

/-- Shape of the recursive resolve entry point, abstracted so the per-scope
helpers can be written exactly one per Go function. -/
abbrev ResolveFn := DC → Ty → String → List Ty → DC × Except Err Val

/-- Parameter-resolution loop of the unnamed wrapped constructor
(`RegisterConstructorWithScope`): resolves each declared parameter in order,
wrapping a failure as `error resolving dependency argType (parameter idx of
ctor)`.  `idx` is 1-based as in the Go message. -/
def resolveParams (resolve : ResolveFn) :
    DC → List Ty → Nat → String → List Ty → DC × Except Err (List Val)
  | dc, [], _, _, _ => (dc, .ok [])
  | dc, p :: rest, idx, scopeID, stack =>
    match resolve dc p scopeID stack with
    | (dc1, .error e) => (dc1, .error (.paramResolve p idx e))
    | (dc1, .ok v) =>
      match resolveParams resolve dc1 rest (idx + 1) scopeID stack with
      | (dc2, .error e) => (dc2, .error e)
      | (dc2, .ok vs) => (dc2, .ok (v :: vs))

/-- Parameter-resolution loop of the named wrapped constructor
(`RegisterNamedConstructorWithScope`): same loop, failure wrapped as
`error resolving dependency argType for named name`. -/
def resolveParamsNamed (resolve : ResolveFn) (name : String) :
    DC → List Ty → String → List Ty → DC × Except Err (List Val)
  | dc, [], _, _ => (dc, .ok [])
  | dc, p :: rest, scopeID, stack =>
    match resolve dc p scopeID stack with
    | (dc1, .error e) => (dc1, .error (.paramResolveNamed p name e))
    | (dc1, .ok v) =>
      match resolveParamsNamed resolve name dc1 rest scopeID stack with
      | (dc2, .error e) => (dc2, .error e)
      | (dc2, .ok vs) => (dc2, .ok (v :: vs))

/-- Invocation of the user constructor once the parameters are assembled:
consults the ghost invocation count of this closure, appends to the log, and
produces the planned result (fresh stamped value / nil / error).  Shared
tail of both wrapped constructors. -/
def ctorCall (dc : DC) (t : Ty) (reg : Registration) : DC × Except Err Val :=
  let k := dc.log.count reg.cid
  let dc1 := { dc with log := dc.log ++ [reg.cid] }
  match reg.behavior.resultAt k with
  | .failure code => (dc1, .error (.goErr code))
  | .nilValue => (dc1, .ok .nil)
  | .value => ({ dc1 with fresh := dc1.fresh + 1 }, .ok (.obj t dc1.fresh reg.cid))

/-- The wrapped constructor built by `RegisterConstructorWithScope`:
resolve every parameter with the same scope id and the current chain, then
call the user constructor. -/
def invokeCtor (resolve : ResolveFn) (dc : DC) (t : Ty) (reg : Registration)
    (scopeID : String) (stack : List Ty) : DC × Except Err Val :=
  match resolveParams resolve dc reg.paramTypes 1 scopeID stack with
  | (dc1, .error e) => (dc1, .error e)
  | (dc1, .ok _args) => ctorCall dc1 t reg

/-- The wrapped constructor built by `RegisterNamedConstructorWithScope`. -/
def invokeCtorNamed (resolve : ResolveFn) (dc : DC) (name : String) (t : Ty)
    (reg : Registration) (scopeID : String) (stack : List Ty) : DC × Except Err Val :=
  match resolveParamsNamed resolve name dc reg.paramTypes scopeID stack with
  | (dc1, .error e) => (dc1, .error e)
  | (dc1, .ok _args) => ctorCall dc1 t reg

/-- Go `resolveSingleton`: fast-path cache hit, otherwise become the builder
(mark in-progress, construct, store on success), cleaning the in-progress
marker on every exit.  The waiting-on-another-builder branch is rendered as
`Err.wouldBlock` (see header). -/
def resolveSingleton (resolve : ResolveFn) (dc : DC) (t : Ty) (reg : Registration)
    (scopeID : String) (stack : List Ty) : DC × Except Err Val :=
  match alookup dc.dependencies t with
  | some dep => (dc, .ok dep)
  | none =>
    if t ∈ dc.inProgress then (dc, .error (.wouldBlock t))
    else
      let dcm := { dc with inProgress := t :: dc.inProgress }
      match invokeCtor resolve dcm t reg scopeID stack with
      | (dc1, .error e) => ({ dc1 with inProgress := dc1.inProgress.erase t }, .error e)
      | (dc1, .ok v) =>
        ({ dc1 with dependencies := aupsert dc1.dependencies t v,
                    inProgress := dc1.inProgress.erase t }, .ok v)

/-- Go `resolveTransient`: construct every time, no cache interaction. -/
def resolveTransient (resolve : ResolveFn) (dc : DC) (t : Ty) (reg : Registration)
    (scopeID : String) (stack : List Ty) : DC × Except Err Val :=
  invokeCtor resolve dc t reg scopeID stack

/-- Ensures the partition for a scope id exists (the `else` arm of the
double check in `resolveScoped`). -/
def ensureScope (dc : DC) (scopeID : String) : DC :=
  match alookup dc.scopedInstances scopeID with
  | some _ => dc
  | none => { dc with scopedInstances := aupsert dc.scopedInstances scopeID [] }

/-- Stores a value in a scope partition. -/
def scopedStore (dc : DC) (scopeID : String) (t : Ty) (v : Val) : DC :=
  let part := (alookup dc.scopedInstances scopeID).getD []
  { dc with scopedInstances := aupsert dc.scopedInstances scopeID (aupsert part t v) }

/-- Go `resolveScoped`: requires a non-empty scope id, cache hit in that
scope's partition, otherwise construct and store under that partition. -/
def resolveScoped (resolve : ResolveFn) (dc : DC) (t : Ty) (reg : Registration)
    (scopeID : String) (stack : List Ty) : DC × Except Err Val :=
  if scopeID = "" then (dc, .error (.scopeRequired t))
  else
    match scopedLookup dc scopeID t with
    | some dep => (dc, .ok dep)
    | none =>
      let dc0 := ensureScope dc scopeID
      match invokeCtor resolve dc0 t reg scopeID stack with
      | (dc1, .error e) => (dc1, .error e)
      | (dc1, .ok v) => (scopedStore dc1 scopeID t v, .ok v)

/-- Go `resolveWithScope` (resolver.go): interface-binding redirection, cycle
check against the current chain, registration lookup, then dispatch by scope
with the chain extended by the current type. -/
def resolveWithScope : Nat → DC → Ty → String → List Ty → DC × Except Err Val
  | 0, dc, _, _, _ => (dc, .error .outOfFuel)
  | fuel + 1, dc, t, scopeID, stack =>
    match (if t.isIface then getInterfaceBinding dc t else none) with
    | some concreteType => resolveWithScope fuel dc concreteType scopeID stack
    | none =>
      if t ∈ stack then
        (dc, .error (.circular (formatDependencyChain t stack)))
      else
        match alookup dc.constructors t with
        | none => (dc, .error (.noCtor t))
        | some registration =>
          let newStack := stack ++ [t]
          match registration.scope with
          | .Singleton => resolveSingleton (resolveWithScope fuel) dc t registration scopeID newStack
          | .Transient => resolveTransient (resolveWithScope fuel) dc t registration scopeID newStack
          | .Scoped => resolveScoped (resolveWithScope fuel) dc t registration scopeID newStack

/-- Go `Resolve`: resolve with the default (empty) scope and a nil chain. -/
def containerResolve (fuel : Nat) (dc : DC) (t : Ty) : DC × Except Err Val :=
  resolveWithScope fuel dc t "" []

/-- Go `ResolveWithScope`. -/
def containerResolveWithScope (fuel : Nat) (dc : DC) (t : Ty) (scopeID : String) :
    DC × Except Err Val :=
  resolveWithScope fuel dc t scopeID []

/-- Lookup in the named singleton cache (`namedDependencies[name][t]`). -/
def namedDepLookup (dc : DC) (name : String) (t : Ty) : Option Val :=
  match alookup dc.namedDependencies name with
  | none => none
  | some m => alookup m t

/-- Ensures the inner map for a name exists in the named singleton cache
(the `else` arm of the double check in `resolveNamedSingleton`, which runs
before construction and therefore persists even if construction fails). -/
def ensureNamedDep (dc : DC) (name : String) : DC :=
  match alookup dc.namedDependencies name with
  | some _ => dc
  | none => { dc with namedDependencies := aupsert dc.namedDependencies name [] }

/-- Stores a value in the named singleton cache. -/
def namedDepStore (dc : DC) (name : String) (t : Ty) (v : Val) : DC :=
  let m := (alookup dc.namedDependencies name).getD []
  { dc with namedDependencies := aupsert dc.namedDependencies name (aupsert m t v) }

/-- Go `resolveNamedSingleton`: cache hit in the named singleton tier,
otherwise construct and store.  The constructor is invoked with an empty
scope id (the Go call is `registration.constructor(dc, "", stack)`). -/
def resolveNamedSingleton (resolve : ResolveFn) (dc : DC) (name : String) (t : Ty)
    (reg : Registration) (stack : List Ty) : DC × Except Err Val :=
  match namedDepLookup dc name t with
  | some dep => (dc, .ok dep)
  | none =>
    let dc0 := ensureNamedDep dc name
    match invokeCtorNamed resolve dc0 name t reg "" stack with
    | (dc1, .error e) => (dc1, .error e)
    | (dc1, .ok v) => (namedDepStore dc1 name t v, .ok v)

/-- Lookup in the named scoped cache (`namedScopedInstances[scope][name][t]`). -/
def namedScopedLookup (dc : DC) (scopeID name : String) (t : Ty) : Option Val :=
  match alookup dc.namedScopedInstances scopeID with
  | none => none
  | some m =>
    match alookup m name with
    | none => none
    | some inner => alookup inner t

/-- Ensures both map levels for (scope, name) exist in the named scoped
cache (runs before construction in `resolveNamedScoped`). -/
def ensureNamedScoped (dc : DC) (scopeID name : String) : DC :=
  let m := (alookup dc.namedScopedInstances scopeID).getD []
  let inner := (alookup m name).getD []
  { dc with namedScopedInstances := aupsert dc.namedScopedInstances scopeID (aupsert m name inner) }

/-- Stores a value in the named scoped cache. -/
def namedScopedStore (dc : DC) (scopeID name : String) (t : Ty) (v : Val) : DC :=
  let m := (alookup dc.namedScopedInstances scopeID).getD []
  let inner := (alookup m name).getD []
  { dc with namedScopedInstances := aupsert dc.namedScopedInstances scopeID (aupsert m name (aupsert inner t v)) }

/-- Go `resolveNamedScoped`: requires a non-empty scope id, cache hit in the
named partition of that scope, otherwise construct (with the caller's scope
id) and store. -/
def resolveNamedScoped (resolve : ResolveFn) (dc : DC) (name : String) (t : Ty)
    (reg : Registration) (scopeID : String) (stack : List Ty) : DC × Except Err Val :=
  if scopeID = "" then (dc, .error (.scopeRequiredNamed t name))
  else
    match namedScopedLookup dc scopeID name t with
    | some dep => (dc, .ok dep)
    | none =>
      let dc0 := ensureNamedScoped dc scopeID name
      match invokeCtorNamed resolve dc0 name t reg scopeID stack with
      | (dc1, .error e) => (dc1, .error e)
      | (dc1, .ok v) => (namedScopedStore dc1 scopeID name t v, .ok v)

/-- Go `resolveNamedWithScope` (named-resolution file): named interface
binding redirection; lookup in `namedConstructors`; on a miss, a hard error
for interface types but a fallback to unnamed resolution otherwise; on a
hit, dispatch by scope against the named cache tiers. -/
def resolveNamedWithScope : Nat → DC → String → Ty → String → List Ty → DC × Except Err Val
  | 0, dc, _, _, _, _ => (dc, .error .outOfFuel)
  | fuel + 1, dc, name, t, scopeID, stack =>
    match (if t.isIface then getNamedInterfaceBinding dc name t else none) with
    | some concreteType => resolveWithScope fuel dc concreteType scopeID stack
    | none =>
      match (match alookup dc.namedConstructors name with
             | none => none
             | some m => alookup m t) with
      | none =>
        if t.isIface then (dc, .error (.noBindingNamed t name))
        else resolveWithScope fuel dc t scopeID stack
      | some registration =>
        match registration.scope with
        | .Singleton => resolveNamedSingleton (resolveWithScope fuel) dc name t registration stack
        | .Transient => invokeCtorNamed (resolveWithScope fuel) dc name t registration scopeID stack
        | .Scoped => resolveNamedScoped (resolveWithScope fuel) dc name t registration scopeID stack

/-- Go `ResolveNamed`. -/
def containerResolveNamed (fuel : Nat) (dc : DC) (name : String) (t : Ty) :
    DC × Except Err Val :=
  resolveNamedWithScope fuel dc name t "" []

/-- Go `ResolveNamedWithScope`. -/
def containerResolveNamedWithScope (fuel : Nat) (dc : DC) (name : String) (t : Ty)
    (scopeID : String) : DC × Except Err Val :=
  resolveNamedWithScope fuel dc name t scopeID []

/-- Go `RegisterConstructorWithScope` (registration file): stores the
Registration under the constructor's declared return type, replacing any
previous one.  The reflective signature checks (must be a function, must
return `(T)` or `(T, error)`) guard malformed Go values and have no
counterpart for structured registrations. -/
def registerConstructorWithScope (dc : DC) (returnType : Ty) (cid : Nat)
    (behavior : CtorBehavior) (scope : Scope) (paramTypes : List Ty) : DC :=
  { dc with constructors :=
      aupsert dc.constructors returnType ⟨cid, behavior, scope, paramTypes⟩ }

/-- Go `OverrideConstructor` (registration file, lines 101-130): register
the new constructor under its return type, then evict that type from the
singleton cache and from every live scope partition. -/
def overrideConstructor (dc : DC) (returnType : Ty) (cid : Nat)
    (behavior : CtorBehavior) (scope : Scope) (paramTypes : List Ty) : DC :=
  let dc1 := registerConstructorWithScope dc returnType cid behavior scope paramTypes
  { dc1 with dependencies := aremove dc1.dependencies returnType,
             scopedInstances := dc1.scopedInstances.map (fun p => (p.1, aremove p.2 returnType)) }

/-- Go `RegisterNamedConstructorWithScope`: stores the named Registration
and evicts the named caches for this (name, return type). -/
def registerNamedConstructorWithScope (dc : DC) (name : String) (returnType : Ty)
    (cid : Nat) (behavior : CtorBehavior) (scope : Scope) (paramTypes : List Ty) : DC :=
  let m := (alookup dc.namedConstructors name).getD []
  let m1 := aupsert m returnType ⟨cid, behavior, scope, paramTypes⟩
  let dc1 := { dc with namedConstructors := aupsert dc.namedConstructors name m1 }
  let nd := match alookup dc1.namedDependencies name with
    | none => dc1.namedDependencies
    | some mm => aupsert dc1.namedDependencies name (aremove mm returnType)
  { dc1 with namedDependencies := nd,
             namedScopedInstances := dc1.namedScopedInstances.map (fun p =>
               (p.1, match alookup p.2 name with
                     | none => p.2
                     | some mm => aupsert p.2 name (aremove mm returnType))) }

/-- Go `CreateScope` (scope.go): the cryptographically random id generation
is modelled by the caller supplying the id; an empty partition is
allocated. -/
def createScope (dc : DC) (scopeID : String) : DC :=
  { dc with scopedInstances := aupsert dc.scopedInstances scopeID [] }

/-- Go `DestroyScope` (scope.go): deletes the unnamed and named partitions
of the scope unconditionally. -/
def destroyScope (dc : DC) (scopeID : String) : DC :=
  { dc with scopedInstances := aremove dc.scopedInstances scopeID,
            namedScopedInstances := aremove dc.namedScopedInstances scopeID }

/-- Go `DestroyAllScopes` (scope.go). -/
def destroyAllScopes (dc : DC) : DC :=
  { dc with scopedInstances := [], namedScopedInstances := [] }

/-- Node of the validation walk (`nodeKey` in validation.go). -/
structure NodeKey where
  t : Ty
  name : String
deriving DecidableEq, Repr

/-- Renders one node the way `validateNode` prints it. -/
def nodeStr (k : NodeKey) : String :=
  if k.name ≠ "" then "[" ++ k.name ++ "]" ++ tyStr k.t else tyStr k.t

/-- The chain string built by `validateNode` when it finds a node already
in progress: every stack entry followed by " -> ", then the repeated key. -/
def validationChain (stack : List NodeKey) (key : NodeKey) : String :=
  (stack.foldl (fun acc node => acc ++ nodeStr node ++ " -> ") "") ++ nodeStr key

/-- State threaded through the validation walk: the shared `visited` map,
the per-root `inProgress` map, and a ghost trace of every node that passed
both entry guards (used to state the visits-each-node-at-most-once claim;
not in the Go source). -/
abbrev VState := List NodeKey × List NodeKey × List NodeKey

/-- Shape of the recursive validation entry point. -/
abbrev ValidateFn := NodeKey → List NodeKey → List NodeKey → List NodeKey → List NodeKey →
    VState × Option Err

/-- The `for _, paramType := range reg.paramTypes` loop of `validateNode`:
walk each parameter as an unnamed node, stopping at the first error. -/
def validateChildren (vn : ValidateFn) :
    List Ty → List NodeKey → List NodeKey → List NodeKey → List NodeKey → VState × Option Err
  | [], visited, inProgress, _, visits => ((visited, inProgress, visits), none)
  | p :: rest, visited, inProgress, newStack, visits =>
    match vn ⟨p, ""⟩ visited inProgress newStack visits with
    | (st, some e) => (st, some e)
    | ((v1, ip1, vs1), none) => validateChildren vn rest v1 ip1 newStack vs1

/-- The deferred cleanup of `validateNode`: `inProgress[key] = false;
visited[key] = true`, run on every exit after the entry guards. -/
def vFinish (key : NodeKey) : VState → VState
  | (visited, inProgress, visits) => (key :: visited, inProgress.erase key, visits)

/-- Go `validateNode` (validation.go): three-state cycle walk.  A node
already in progress is a cycle (reported with the full stack); a visited
node returns immediately; otherwise mark in progress, follow a named or
unnamed interface binding, look up the registration, walk the parameters,
and on every one of those exits run the deferred marking (done + not in
progress).  The fuel decreases at each recursive call; the ghost visits
trace records each node that passes both entry guards. -/
def validateNode (dc : DC) : Nat → ValidateFn
  | 0, _, visited, inProgress, _, visits => ((visited, inProgress, visits), some .outOfFuel)
  | fuel + 1, key, visited, inProgress, stack, visits =>
    if key ∈ inProgress then
      ((visited, inProgress, visits), some (.circular (validationChain stack key)))
    else if key ∈ visited then
      ((visited, inProgress, visits), none)
    else
      let ip1 := key :: inProgress
      let newStack := stack ++ [key]
      let vs1 := visits ++ [key]
      if key.name ≠ "" then
        match (if key.t.isIface then getNamedInterfaceBinding dc key.name key.t else none) with
        | some concreteType =>
          let (st, res) := validateNode dc fuel ⟨concreteType, ""⟩ visited ip1 newStack vs1
          (vFinish key st, res)
        | none =>
          match (match alookup dc.namedConstructors key.name with
                 | none => none
                 | some m => alookup m key.t) with
          | none => (vFinish key (visited, ip1, vs1), some (.noCtorNamed key.t key.name))
          | some reg =>
            let (st, res) := validateChildren (validateNode dc fuel) reg.paramTypes visited ip1 newStack vs1
            (vFinish key st, res)
      else
        if key.t.isIface then
          match getInterfaceBinding dc key.t with
          | some concreteType =>
            let (st, res) := validateNode dc fuel ⟨concreteType, ""⟩ visited ip1 newStack vs1
            (vFinish key st, res)
          | none => (vFinish key (visited, ip1, vs1), some (.noBindingIface key.t))
        else
          match alookup dc.constructors key.t with
          | none => (vFinish key (visited, ip1, vs1), some (.noCtor key.t))
          | some reg =>
            let (st, res) := validateChildren (validateNode dc fuel) reg.paramTypes visited ip1 newStack vs1
            (vFinish key st, res)

/-- The root loops of Go `Validate`: every unnamed constructor key, then
every named constructor key, each walked with the shared `visited` map, a
fresh `inProgress` map and a nil stack, stopping at the first error. -/
def validateRoots (vn : ValidateFn) :
    List NodeKey → List NodeKey → List NodeKey → (List NodeKey × List NodeKey) × Option Err
  | [], visited, visits => ((visited, visits), none)
  | k :: rest, visited, visits =>
    match vn k visited [] [] visits with
    | ((v1, _, vs1), some e) => ((v1, vs1), some e)
    | ((v1, _, vs1), none) => validateRoots vn rest v1 vs1

/-- Go `Validate` (validation.go): walks the whole registry.  The container
is returned unchanged as the first component, mirroring that the Go walk
performs no write to the container; the second component is the ghost trace
of visited nodes. -/
def containerValidate (fuel : Nat) (dc : DC) : DC × List NodeKey × Option Err :=
  let unnamedRoots := dc.constructors.map (fun p => (⟨p.1, ""⟩ : NodeKey))
  let namedRoots := (dc.namedConstructors.map (fun q =>
      q.2.map (fun p => (⟨p.1, q.1⟩ : NodeKey)))).flatten
  match validateRoots (validateNode dc fuel) (unnamedRoots ++ namedRoots) [] [] with
  | ((_, visits), res) => (dc, visits, res)

/-- The Go type assertion `instance.(T)`: a nil interface value never
satisfies it; for non-nil values the claims only exercise assertions
against the value's own dynamic type, modelled as type-handle equality. -/
def assertType (v : Val) (t : Ty) : Bool :=
  match v with
  | .nil => false
  | .obj dynTy _ _ => dynTy = t

/-- Errors of the typed public entry point `di.Resolve` (resolve.go). -/
inductive DiErr where
  | resolveFailed (t : Ty) (e : Err)
  | nilInstance (t : Ty)
  | castFailed (t : Ty)
deriving DecidableEq, Repr

/-- Go `di.Resolve` (pkg/di/resolve.go): resolve the static type from the
container, fail on a resolution error, on a nil instance, and on a failed
cast; the zero value returned alongside an error is modelled as `Val.nil`. -/
def diResolve (fuel : Nat) (dc : DC) (t : Ty) : DC × Val × Option DiErr :=
  match containerResolve fuel dc t with
  | (dc1, .error e) => (dc1, .nil, some (.resolveFailed t e))
  | (dc1, .ok inst) =>
    if inst = .nil then (dc1, .nil, some (.nilInstance t))
    else if assertType inst t then (dc1, inst, none)
    else (dc1, .nil, some (.castFailed t))

/-- Go `provider.Get` (provider file, name-aware version): resolve (named
if the provider holds a name), propagate a resolution error, and on a
failed type assertion return the zero value with a nil error.  The zero
value of the type parameter is modelled as `Val.nil`. -/
def providerGet (fuel : Nat) (dc : DC) (t : Ty) (scopeID name : String) :
    DC × Val × Option Err :=
  match (if name ≠ "" then resolveNamedWithScope fuel dc name t scopeID []
         else resolveWithScope fuel dc t scopeID []) with
  | (dc1, .error e) => (dc1, .nil, some e)
  | (dc1, .ok inst) =>
    if assertType inst t then (dc1, inst, none) else (dc1, .nil, none)

/-- The parts of the container state that one unnamed resolve with a given
scope id can never change: the registries, the bindings, every named cache,
every foreign scope partition; and the ghost stamp counter never
decreases. -/
def Frame (scopeID : String) (dc dc' : DC) : Prop :=
  dc'.constructors = dc.constructors ∧
  dc'.interfaceBindings = dc.interfaceBindings ∧
  dc'.namedInterfaceBindings = dc.namedInterfaceBindings ∧
  dc'.namedConstructors = dc.namedConstructors ∧
  dc'.namedDependencies = dc.namedDependencies ∧
  dc'.namedScopedInstances = dc.namedScopedInstances ∧
  (∀ s, s ≠ scopeID → alookup dc'.scopedInstances s = alookup dc.scopedInstances s) ∧
  dc.fresh ≤ dc'.fresh

/-- The closure identity `cid` belongs to at most one registered type, `t`:
distinct registrations hold distinct constructor closures. -/
def CidUnique (R : List (Ty × Registration)) (cid : Nat) (t : Ty) : Prop :=
  ∀ u r, alookup R u = some r → r.cid = cid → u = t

/-- What a resolve that happens strictly below `t` on the resolution chain
leaves untouched: every cache entry of `t`, the invocation count of `t`'s
constructor, and `t`'s in-progress marker. -/
def PreserveAt (t : Ty) (cid : Nat) (dc dc' : DC) : Prop :=
  alookup dc'.dependencies t = alookup dc.dependencies t ∧
  (∀ s, scopedLookup dc' s t = scopedLookup dc s t) ∧
  dc'.log.count cid = dc.log.count cid ∧
  dc'.inProgress.count t = dc.inProgress.count t

/-- A value's ghost stamp (if it is an object) lies below `n`. -/
def ValBelow (v : Val) (n : Nat) : Prop :=
  ∀ t s c, v = .obj t s c → s < n

/-- Every value cached in the unnamed tiers carries a stamp below the ghost
counter: the counter never hands out a stamp twice. -/
def StampsBelow (dc : DC) : Prop :=
  (∀ t v, alookup dc.dependencies t = some v → ValBelow v dc.fresh) ∧
  (∀ s t v, scopedLookup dc s t = some v → ValBelow v dc.fresh)

/-- Repeated resolution of the same type: `resolveNTimes fuel dc t n` performs
`n` successive `Resolve` calls (each with the given fuel), threading the
container state, and returns the outcome of the last one.  `n = 0` is not a
resolution and yields the model-only fuel error. -/
def resolveNTimes (fuel : Nat) (dc : DC) (t : Ty) : Nat → DC × Except Err Val
  | 0 => (dc, .error .outOfFuel)
  | 1 => containerResolve fuel dc t
  | n + 2 => resolveNTimes fuel (containerResolve fuel dc t).1 t (n + 1)

/-- Concrete singleton example: one parameterless Singleton registration for
type name "A" with closure identity 1. -/
def tyWA : Ty := ⟨"A", false⟩

def regW1 : Registration := ⟨1, ⟨[]⟩, .Singleton, []⟩

def dcW1 : DC := { newDC with constructors := [(tyWA, regW1)] }

def vW1 : Val := .obj tyWA 0 1

/-- The container state after the first resolve of `tyWA` from `dcW1`. -/
def dcW1after : DC := { dcW1 with dependencies := [(tyWA, vW1)], log := [1], fresh := 1 }

/-- Concrete transient example. -/
def tyWB : Ty := ⟨"B", false⟩

def regW3 : Registration := ⟨2, ⟨[]⟩, .Transient, []⟩

def dcW3 : DC := { newDC with constructors := [(tyWB, regW3)] }

def dcW3a : DC := { dcW3 with log := [2], fresh := 1 }

def dcW3b : DC := { dcW3 with log := [2, 2], fresh := 2 }

/-- Concrete scoped example. -/
def tyWD : Ty := ⟨"D", false⟩

def regW4 : Registration := ⟨4, ⟨[]⟩, .Scoped, []⟩

def dcW4 : DC := { newDC with constructors := [(tyWD, regW4)] }

def dcW4a : DC :=
  { dcW4 with scopedInstances := [("s1", [(tyWD, .obj tyWD 0 4)])], log := [4], fresh := 1 }

def dcW4bScoped : List (String × List (Ty × Val)) :=
  [("s1", [(tyWD, .obj tyWD 0 4)]), ("s2", [(tyWD, .obj tyWD 1 4)])]

def dcW4b : DC :=
  { dcW4 with scopedInstances := dcW4bScoped, log := [4, 4], fresh := 2 }

/-- Concrete failing-constructor example: the constructor returns error 42
on its first invocation and succeeds afterwards. -/
def tyWC : Ty := ⟨"C", false⟩

def regW5 : Registration := ⟨3, ⟨[.failure 42]⟩, .Singleton, []⟩

def dcW5 : DC := { newDC with constructors := [(tyWC, regW5)] }

def dcW5a : DC := { dcW5 with log := [3] }

/-- Concrete override example. -/
def tyWE : Ty := ⟨"E", false⟩

def regW6 : Registration := ⟨5, ⟨[]⟩, .Singleton, []⟩

def dcW6 : DC := { newDC with constructors := [(tyWE, regW6)] }

def dcW6a : DC := { dcW6 with dependencies := [(tyWE, .obj tyWE 0 5)], log := [5], fresh := 1 }

def dcW6cCtors : List (Ty × Registration) := [(tyWE, ⟨6, ⟨[]⟩, .Singleton, []⟩)]

def dcW6c : DC := { dcW6 with constructors := dcW6cCtors, dependencies := [(tyWE, .obj tyWE 1 6)], log := [5, 6], fresh := 2 }

/-- Concrete named-fallback example: an unnamed registration only. -/
def tyWF : Ty := ⟨"F", false⟩

def dcW8 : DC := { newDC with constructors := [(tyWF, ⟨7, ⟨[]⟩, .Singleton, []⟩)] }

/-- Concrete provider example: an interface-typed registration whose
constructor returns a nil interface value. -/
def tyWI : Ty := ⟨"I", true⟩

def regW9 : Registration := ⟨8, ⟨[.nilValue]⟩, .Singleton, []⟩

def dcW9 : DC := { newDC with constructors := [(tyWI, regW9)] }

def dcW9a : DC := { dcW9 with dependencies := [(tyWI, .nil)], log := [8] }

/-- Concrete named-singleton-with-scoped-parameter example. -/
def tyWG : Ty := ⟨"G", false⟩

def tyWP : Ty := ⟨"P", false⟩

/-- Parameterized container for the named-singleton/scoped-parameter
comparison: a Scoped registration for `p` and a named Singleton
registration for `t` (under `nm`) whose constructor takes `p`. -/
def dcC10A (nm : String) (t p : Ty) (cidN cidP : Nat) : DC :=
  { newDC with constructors := [(p, ⟨cidP, ⟨[]⟩, .Scoped, []⟩)], namedConstructors := [(nm, [(t, ⟨cidN, ⟨[]⟩, .Singleton, [p]⟩)])] }

/-- The unnamed counterpart: a Scoped registration for `p` and an unnamed
Singleton registration for `t` whose constructor takes `p`. -/
def dcC10B (t p : Ty) (cidU cidP : Nat) : DC :=
  { newDC with constructors := [(p, ⟨cidP, ⟨[]⟩, .Scoped, []⟩), (t, ⟨cidU, ⟨[]⟩, .Singleton, [p]⟩)] }

/-- The state after successfully resolving `t` from `dcC10B` under scope
`sid`. -/
def dcC10Bafter (sid : String) (t p : Ty) (cidU cidP : Nat) : DC :=
  { dcC10B t p cidU cidP with dependencies := [(t, .obj t 1 cidU)], scopedInstances := [(sid, [(p, .obj p 0 cidP)])], log := [cidP, cidU], fresh := 2 }

/-- Invariant of the validation walk's ghost trace: the visits are
pairwise distinct, and every visited node is already marked done or still
in progress (so it can never pass the entry guards again). -/
def VWalkInv (visited inProgress visits : List NodeKey) : Prop :=
  visits.Nodup ∧ ∀ k ∈ visits, k ∈ visited ∨ k ∈ inProgress

/-- Node key of an unnamed type in the validation walk. -/
def tyKey (t : Ty) : NodeKey := ⟨t, ""⟩

/-- Projection of a resolve outcome onto its reported root cause: success
carries no error, failure the error with the parameter-resolution wrappers
stripped (what a caller unwrapping the Go error chain observes). -/
def errView : Except Err Val → Option Err
  | .ok _ => none
  | .error e => some (rootCause e)

/-- Same projection for the parameter-list outcome of a wrapped
constructor. -/
def errViewL : Except Err (List Val) → Option Err
  | .ok _ => none
  | .error e => some (rootCause e)

/-- Helper rendering of a type stack where every entry is followed by an
arrow, the shape the validation chain fold produces. -/
def chainPre : List Ty → String
  | [] => ""
  | t :: rest => tyStr t ++ " -> " ++ chainPre rest

/-- Simulation invariant tying a resolver state to a validation-walk state
over the same registry: registries agree, a node is marked visited exactly
when its singleton is cached, everything cached is registered, and every
in-progress singleton marker lies on the current chain. -/
def SimInv (C : List (Ty × Registration)) (dc : DC) (visited : List NodeKey)
    (stack : List Ty) : Prop :=
  dc.constructors = C ∧
  (∀ u : Ty, tyKey u ∈ visited ↔ (alookup dc.dependencies u).isSome = true) ∧
  (∀ u : Ty, (alookup dc.dependencies u).isSome = true → (alookup C u).isSome = true) ∧
  (∀ u ∈ dc.inProgress, u ∈ stack)

/-- Plain-graph restriction for the resolver/validator agreement: every
registration is an unnamed Singleton whose constructor always succeeds
(empty plan) and whose parameter types are concrete (no interfaces). -/
def SingletonPlain (C : List (Ty × Registration)) : Prop :=
  ∀ p ∈ C, p.2.scope = .Singleton ∧ p.2.behavior.plan = [] ∧
    ∀ q ∈ p.2.paramTypes, q.isIface = false

/-- Concrete cyclic registry A -> B -> C -> B, all plain Singletons. -/
def dcC2 : DC := { newDC with constructors :=
  [(⟨"A", false⟩, ⟨11, ⟨[]⟩, .Singleton, [⟨"B", false⟩]⟩),
   (⟨"B", false⟩, ⟨12, ⟨[]⟩, .Singleton, [⟨"C", false⟩]⟩),
   (⟨"C", false⟩, ⟨13, ⟨[]⟩, .Singleton, [⟨"B", false⟩]⟩)] }

theorem alookup_aupsert_self {α β : Type} [DecidableEq α] (l : List (α × β)) (k : α) (v : β) :
    alookup (aupsert l k v) k = some v := by
  induction l with
  | nil => simp [alookup, aupsert]
  | cons p rest ih =>
    obtain ⟨a, b⟩ := p
    by_cases h : a = k <;> simp [alookup, aupsert, h, ih]

theorem alookup_aupsert_ne {α β : Type} [DecidableEq α] (l : List (α × β)) (k k' : α) (v : β)
    (h : k' ≠ k) : alookup (aupsert l k v) k' = alookup l k' := by
  have hkk : ¬ k = k' := fun h' => h h'.symm
  induction l with
  | nil => simp [alookup, aupsert, hkk]
  | cons p rest ih =>
    obtain ⟨a, b⟩ := p
    by_cases h1 : a = k
    · have hp : ¬ a = k' := by rw [h1]; exact hkk
      simp [alookup, aupsert, h1, hkk, hp]
    · simp [alookup, aupsert, h1, ih]

theorem alookup_aremove_self {α β : Type} [DecidableEq α] (l : List (α × β)) (k : α) :
    alookup (aremove l k) k = none := by
  induction l with
  | nil => rfl
  | cons p rest ih =>
    obtain ⟨a, b⟩ := p
    by_cases h : a = k
    · simpa [aremove, List.filter_cons, h] using ih
    · simpa [aremove, List.filter_cons, h, alookup] using ih

theorem alookup_aremove_ne {α β : Type} [DecidableEq α] (l : List (α × β)) (k k' : α)
    (h : k' ≠ k) : alookup (aremove l k) k' = alookup l k' := by
  have hkk : ¬ k = k' := fun h' => h h'.symm
  induction l with
  | nil => rfl
  | cons p rest ih =>
    obtain ⟨a, b⟩ := p
    by_cases h1 : a = k
    · simpa [aremove, List.filter_cons, h1, alookup, hkk] using ih
    · by_cases h2 : a = k'
      · simp [alookup, aremove, List.filter_cons, h1, h2, h, hkk]
      · simpa [alookup, aremove, List.filter_cons, h1, h2] using ih

theorem alookup_map_aremove {α β : Type} [DecidableEq α]
    {γ : Type} [DecidableEq γ] (l : List (α × List (γ × β))) (s : α) (k : γ) :
    alookup (l.map (fun p => (p.1, aremove p.2 k))) s = (alookup l s).map (fun m => aremove m k) := by
  induction l with
  | nil => simp [alookup]
  | cons p rest ih =>
    obtain ⟨a, b⟩ := p
    by_cases h : a = s <;> simp [alookup, h, ih]

theorem frame_refl (scopeID : String) (dc : DC) : Frame scopeID dc dc :=
  ⟨rfl, rfl, rfl, rfl, rfl, rfl, fun _ _ => rfl, Nat.le_refl _⟩

theorem frame_trans {scopeID : String} {dc1 dc2 dc3 : DC}
    (h1 : Frame scopeID dc1 dc2) (h2 : Frame scopeID dc2 dc3) : Frame scopeID dc1 dc3 := by
  obtain ⟨a1, b1, c1, d1, e1, f1, g1, m1⟩ := h1
  obtain ⟨a2, b2, c2, d2, e2, f2, g2, m2⟩ := h2
  exact ⟨a2.trans a1, b2.trans b1, c2.trans c1, d2.trans d1, e2.trans e1, f2.trans f1,
    fun s hs => (g2 s hs).trans (g1 s hs), Nat.le_trans m1 m2⟩

theorem ctorCall_frame (scopeID : String) (dc : DC) (t : Ty) (reg : Registration) :
    Frame scopeID dc (ctorCall dc t reg).1 := by
  cases hr : reg.behavior.resultAt (dc.log.count reg.cid) <;>
    simp only [ctorCall, hr] <;>
    exact ⟨rfl, rfl, rfl, rfl, rfl, rfl, fun _ _ => rfl, by simp⟩

theorem resolveParams_frame (resolve : ResolveFn) (scopeID : String)
    (hres : ∀ dc t stack, Frame scopeID dc (resolve dc t scopeID stack).1) :
    ∀ ps dc idx stack, Frame scopeID dc (resolveParams resolve dc ps idx scopeID stack).1 := by
  intro ps
  induction ps with
  | nil => intro dc idx stack; exact frame_refl _ _
  | cons p rest ih =>
    intro dc idx stack
    have h1 := hres dc p stack
    simp only [resolveParams]
    split
    · next dc1 e heq => rw [heq] at h1; exact h1
    · next dc1 v heq =>
      rw [heq] at h1
      have h2 := ih dc1 (idx + 1) stack
      split
      · next dc2 e2 heq2 => rw [heq2] at h2; exact frame_trans h1 h2
      · next dc2 vs heq2 => rw [heq2] at h2; exact frame_trans h1 h2

theorem invokeCtor_frame (resolve : ResolveFn) (scopeID : String)
    (hres : ∀ dc t stack, Frame scopeID dc (resolve dc t scopeID stack).1)
    (dc : DC) (t : Ty) (reg : Registration) (stack : List Ty) :
    Frame scopeID dc (invokeCtor resolve dc t reg scopeID stack).1 := by
  have h1 := resolveParams_frame resolve scopeID hres reg.paramTypes dc 1 stack
  simp only [invokeCtor]
  split
  · next dc1 e heq => rw [heq] at h1; exact h1
  · next dc1 args heq =>
    rw [heq] at h1
    exact frame_trans h1 (ctorCall_frame scopeID dc1 t reg)

theorem resolveSingleton_frame (resolve : ResolveFn) (scopeID : String)
    (hres : ∀ dc t stack, Frame scopeID dc (resolve dc t scopeID stack).1)
    (dc : DC) (t : Ty) (reg : Registration) (stack : List Ty) :
    Frame scopeID dc (resolveSingleton resolve dc t reg scopeID stack).1 := by
  simp only [resolveSingleton]
  split
  · exact frame_refl _ _
  · by_cases hip : t ∈ dc.inProgress
    · simp only [if_pos hip]; exact frame_refl _ _
    · simp only [if_neg hip]
      have h1 := invokeCtor_frame resolve scopeID hres
        { dc with inProgress := t :: dc.inProgress } t reg stack
      split
      · next dc1 e heq => rw [heq] at h1; exact h1
      · next dc1 v heq =>
        rw [heq] at h1
        exact frame_trans h1 ⟨rfl, rfl, rfl, rfl, rfl, rfl, fun _ _ => rfl, Nat.le_refl _⟩

theorem ensureScope_frame (scopeID : String) (dc : DC) :
    Frame scopeID dc (ensureScope dc scopeID) := by
  unfold ensureScope
  cases h : alookup dc.scopedInstances scopeID with
  | some part => exact frame_refl _ _
  | none =>
    exact ⟨rfl, rfl, rfl, rfl, rfl, rfl,
      fun s hs => alookup_aupsert_ne _ _ _ _ hs, Nat.le_refl _⟩

theorem scopedStore_frame (scopeID : String) (dc : DC) (t : Ty) (v : Val) :
    Frame scopeID dc (scopedStore dc scopeID t v) :=
  ⟨rfl, rfl, rfl, rfl, rfl, rfl,
    fun s hs => alookup_aupsert_ne _ _ _ _ hs, Nat.le_refl _⟩

theorem resolveScoped_frame (resolve : ResolveFn) (scopeID : String)
    (hres : ∀ dc t stack, Frame scopeID dc (resolve dc t scopeID stack).1)
    (dc : DC) (t : Ty) (reg : Registration) (stack : List Ty) :
    Frame scopeID dc (resolveScoped resolve dc t reg scopeID stack).1 := by
  simp only [resolveScoped]
  by_cases hempty : scopeID = ""
  · simp only [if_pos hempty]; exact frame_refl _ _
  · simp only [if_neg hempty]
    split
    · exact frame_refl _ _
    · have h0 := ensureScope_frame scopeID dc
      have h1 := invokeCtor_frame resolve scopeID hres (ensureScope dc scopeID) t reg stack
      split
      · next dc1 e heq => rw [heq] at h1; exact frame_trans h0 h1
      · next dc1 v heq =>
        rw [heq] at h1
        exact frame_trans (frame_trans h0 h1) (scopedStore_frame scopeID dc1 t v)

theorem resolveWithScope_frame :
    ∀ (fuel : Nat) (dc : DC) (t : Ty) (scopeID : String) (stack : List Ty),
    Frame scopeID dc (resolveWithScope fuel dc t scopeID stack).1 := by
  intro fuel
  induction fuel with
  | zero => intro dc t scopeID stack; exact frame_refl _ _
  | succ fuel ih =>
    intro dc t scopeID stack
    simp only [resolveWithScope]
    split
    · next concreteType heq => exact ih dc concreteType scopeID stack
    · by_cases hcyc : t ∈ stack
      · simp only [if_pos hcyc]; exact frame_refl _ _
      · simp only [if_neg hcyc]
        split
        · exact frame_refl _ _
        · next registration heq2 =>
          split
          · exact resolveSingleton_frame _ _ (fun a b c => ih a b scopeID c) dc t registration (stack ++ [t])
          · exact invokeCtor_frame _ _ (fun a b c => ih a b scopeID c) dc t registration (stack ++ [t])
          · exact resolveScoped_frame _ _ (fun a b c => ih a b scopeID c) dc t registration (stack ++ [t])

theorem preserveAt_refl (t : Ty) (cid : Nat) (dc : DC) : PreserveAt t cid dc dc :=
  ⟨rfl, fun _ => rfl, rfl, rfl⟩

theorem preserveAt_trans {t : Ty} {cid : Nat} {dc1 dc2 dc3 : DC}
    (h1 : PreserveAt t cid dc1 dc2) (h2 : PreserveAt t cid dc2 dc3) :
    PreserveAt t cid dc1 dc3 := by
  obtain ⟨a1, b1, c1, d1⟩ := h1
  obtain ⟨a2, b2, c2, d2⟩ := h2
  exact ⟨a2.trans a1, fun s => (b2 s).trans (b1 s), c2.trans c1, d2.trans d1⟩

theorem ctorCall_preserve (t : Ty) (cid : Nat) (dc : DC) (t' : Ty) (reg : Registration)
    (hne : reg.cid ≠ cid) : PreserveAt t cid dc (ctorCall dc t' reg).1 := by
  cases hr : reg.behavior.resultAt (dc.log.count reg.cid) <;>
    simp only [ctorCall, hr] <;>
    exact ⟨rfl, fun _ => rfl, by simp [List.count_append, List.count_cons, hne], rfl⟩

theorem resolveParams_preserve (resolve : ResolveFn) (scopeID : String) (t : Ty) (cid : Nat)
    (hframe : ∀ dc u stack, (resolve dc u scopeID stack).1.constructors = dc.constructors)
    (hres : ∀ dc u stack, CidUnique dc.constructors cid t → t ∈ stack →
        PreserveAt t cid dc (resolve dc u scopeID stack).1) :
    ∀ ps dc idx stack, CidUnique dc.constructors cid t → t ∈ stack →
      PreserveAt t cid dc (resolveParams resolve dc ps idx scopeID stack).1 := by
  intro ps
  induction ps with
  | nil => intro dc idx stack _ _; exact preserveAt_refl _ _ _
  | cons p rest ih =>
    intro dc idx stack hcid hmem
    have h1 := hres dc p stack hcid hmem
    have hc1 := hframe dc p stack
    simp only [resolveParams]
    split
    · next dc1 e heq => rw [heq] at h1; exact h1
    · next dc1 v heq =>
      rw [heq] at h1
      rw [heq] at hc1
      have hcid1 : CidUnique dc1.constructors cid t := by rw [hc1]; exact hcid
      have h2 := ih dc1 (idx + 1) stack hcid1 hmem
      split
      · next dc2 e2 heq2 => rw [heq2] at h2; exact preserveAt_trans h1 h2
      · next dc2 vs heq2 => rw [heq2] at h2; exact preserveAt_trans h1 h2

theorem invokeCtor_preserve (resolve : ResolveFn) (scopeID : String) (t : Ty) (cid : Nat)
    (hframe : ∀ dc u stack, (resolve dc u scopeID stack).1.constructors = dc.constructors)
    (hres : ∀ dc u stack, CidUnique dc.constructors cid t → t ∈ stack →
        PreserveAt t cid dc (resolve dc u scopeID stack).1)
    (dc : DC) (t' : Ty) (reg : Registration) (stack : List Ty)
    (hne : reg.cid ≠ cid) (hcid : CidUnique dc.constructors cid t) (hmem : t ∈ stack) :
    PreserveAt t cid dc (invokeCtor resolve dc t' reg scopeID stack).1 := by
  have h1 := resolveParams_preserve resolve scopeID t cid hframe hres reg.paramTypes dc 1 stack hcid hmem
  simp only [invokeCtor]
  split
  · next dc1 e heq => rw [heq] at h1; exact h1
  · next dc1 args heq =>
    rw [heq] at h1
    exact preserveAt_trans h1 (ctorCall_preserve t cid dc1 t' reg hne)

theorem resolveSingleton_preserve (resolve : ResolveFn) (scopeID : String) (t : Ty) (cid : Nat)
    (hframe : ∀ dc u stack, (resolve dc u scopeID stack).1.constructors = dc.constructors)
    (hres : ∀ dc u stack, CidUnique dc.constructors cid t → t ∈ stack →
        PreserveAt t cid dc (resolve dc u scopeID stack).1)
    (dc : DC) (u : Ty) (reg : Registration) (stack : List Ty)
    (hut : u ≠ t) (hne : reg.cid ≠ cid)
    (hcid : CidUnique dc.constructors cid t) (hmem : t ∈ stack) :
    PreserveAt t cid dc (resolveSingleton resolve dc u reg scopeID stack).1 := by
  have htu : t ≠ u := fun h => hut h.symm
  simp only [resolveSingleton]
  split
  · exact preserveAt_refl _ _ _
  · by_cases hip : u ∈ dc.inProgress
    · simp only [if_pos hip]; exact preserveAt_refl _ _ _
    · simp only [if_neg hip]
      have hstep : PreserveAt t cid dc { dc with inProgress := u :: dc.inProgress } :=
        ⟨rfl, fun _ => rfl, rfl, by simp [List.count_cons, htu]⟩
      have h1 := invokeCtor_preserve resolve scopeID t cid hframe hres
        { dc with inProgress := u :: dc.inProgress } u reg stack hne hcid hmem
      split
      · next dc1 e heq =>
        rw [heq] at h1
        refine preserveAt_trans (preserveAt_trans hstep h1) ?_
        exact ⟨rfl, fun _ => rfl, rfl, List.count_erase_of_ne htu _⟩
      · next dc1 v heq =>
        rw [heq] at h1
        refine preserveAt_trans (preserveAt_trans hstep h1) ?_
        exact ⟨alookup_aupsert_ne _ _ _ _ htu, fun _ => rfl, rfl, List.count_erase_of_ne htu _⟩

theorem ensureScope_scopedLookup (dc : DC) (s0 s : String) (t : Ty) :
    scopedLookup (ensureScope dc s0) s t = scopedLookup dc s t := by
  unfold ensureScope
  cases h : alookup dc.scopedInstances s0 with
  | some part => rfl
  | none =>
    by_cases hs : s = s0
    · subst hs
      simp [scopedLookup, alookup_aupsert_self, h, alookup]
    · simp [scopedLookup, alookup_aupsert_ne _ _ _ _ hs]

theorem scopedStore_scopedLookup_ne (dc : DC) (s0 : String) (u : Ty) (v : Val)
    (s : String) (t : Ty) (htu : t ≠ u) :
    scopedLookup (scopedStore dc s0 u v) s t = scopedLookup dc s t := by
  unfold scopedStore
  by_cases hs : s = s0
  · subst hs
    simp only [scopedLookup, alookup_aupsert_self]
    rw [alookup_aupsert_ne _ _ _ _ htu]
    cases h : alookup dc.scopedInstances s <;> simp [h, alookup]
  · simp [scopedLookup, alookup_aupsert_ne _ _ _ _ hs]

theorem ensureScope_preserve (t : Ty) (cid : Nat) (dc : DC) (s0 : String) :
    PreserveAt t cid dc (ensureScope dc s0) := by
  have hlook := fun s => ensureScope_scopedLookup dc s0 s t
  unfold ensureScope at hlook ⊢
  cases h : alookup dc.scopedInstances s0 with
  | some part => exact preserveAt_refl _ _ _
  | none =>
    refine ⟨rfl, fun s => ?_, rfl, rfl⟩
    have := hlook s
    rw [h] at this
    exact this

theorem resolveScoped_preserve (resolve : ResolveFn) (scopeID : String) (t : Ty) (cid : Nat)
    (hframe : ∀ dc u stack, (resolve dc u scopeID stack).1.constructors = dc.constructors)
    (hres : ∀ dc u stack, CidUnique dc.constructors cid t → t ∈ stack →
        PreserveAt t cid dc (resolve dc u scopeID stack).1)
    (dc : DC) (u : Ty) (reg : Registration) (stack : List Ty)
    (hut : u ≠ t) (hne : reg.cid ≠ cid)
    (hcid : CidUnique dc.constructors cid t) (hmem : t ∈ stack) :
    PreserveAt t cid dc (resolveScoped resolve dc u reg scopeID stack).1 := by
  have htu : t ≠ u := fun h => hut h.symm
  simp only [resolveScoped]
  by_cases hempty : scopeID = ""
  · simp only [if_pos hempty]; exact preserveAt_refl _ _ _
  · simp only [if_neg hempty]
    split
    · exact preserveAt_refl _ _ _
    · have h0 : PreserveAt t cid dc (ensureScope dc scopeID) :=
        ensureScope_preserve t cid dc scopeID
      have hcid0 : CidUnique (ensureScope dc scopeID).constructors cid t := by
        unfold ensureScope
        cases h : alookup dc.scopedInstances scopeID <;> exact hcid
      have h1 := invokeCtor_preserve resolve scopeID t cid hframe hres
        (ensureScope dc scopeID) u reg stack hne hcid0 hmem
      split
      · next dc1 e heq => rw [heq] at h1; exact preserveAt_trans h0 h1
      · next dc1 v heq =>
        rw [heq] at h1
        refine preserveAt_trans (preserveAt_trans h0 h1) ?_
        exact ⟨rfl, fun s => scopedStore_scopedLookup_ne dc1 scopeID u v s t htu, rfl, rfl⟩

theorem resolveWithScope_preserve (t : Ty) (cid : Nat) :
    ∀ (fuel : Nat) (dc : DC) (u : Ty) (scopeID : String) (stack : List Ty),
    CidUnique dc.constructors cid t → t ∈ stack →
    PreserveAt t cid dc (resolveWithScope fuel dc u scopeID stack).1 := by
  intro fuel
  induction fuel with
  | zero => intro dc u scopeID stack _ _; exact preserveAt_refl _ _ _
  | succ fuel ih =>
    intro dc u scopeID stack hcid hmem
    have hframe : ∀ dc' u' stack',
        (resolveWithScope fuel dc' u' scopeID stack').1.constructors = dc'.constructors :=
      fun dc' u' stack' => (resolveWithScope_frame fuel dc' u' scopeID stack').1
    simp only [resolveWithScope]
    split
    · next concreteType heq => exact ih dc concreteType scopeID stack hcid hmem
    · by_cases hcyc : u ∈ stack
      · simp only [if_pos hcyc]; exact preserveAt_refl _ _ _
      · simp only [if_neg hcyc]
        split
        · exact preserveAt_refl _ _ _
        · next registration heq2 =>
          have hut : u ≠ t := fun h => hcyc (h ▸ hmem)
          have hne : registration.cid ≠ cid := by
            intro h
            exact hut (hcid u registration heq2 h)
          have hmem2 : t ∈ stack ++ [u] := List.mem_append_left _ hmem
          split
          · exact resolveSingleton_preserve _ _ t cid hframe
              (fun a b c => ih a b scopeID c) dc u registration (stack ++ [u]) hut hne hcid hmem2
          · exact invokeCtor_preserve _ _ t cid hframe
              (fun a b c => ih a b scopeID c) dc u registration (stack ++ [u]) hne hcid hmem2
          · exact resolveScoped_preserve _ _ t cid hframe
              (fun a b c => ih a b scopeID c) dc u registration (stack ++ [u]) hut hne hcid hmem2

theorem valBelow_mono {v : Val} {n m : Nat} (h : ValBelow v n) (hle : n ≤ m) :
    ValBelow v m :=
  fun t s c he => Nat.lt_of_lt_of_le (h t s c he) hle

theorem valBelow_nil (n : Nat) : ValBelow Val.nil n := by
  intro t s c h
  cases h

theorem alookup_aupsert_cases {α β : Type} [DecidableEq α] (l : List (α × β)) (k a : α)
    (v w : β) (h : alookup (aupsert l k v) a = some w) :
    (a = k ∧ w = v) ∨ alookup l a = some w := by
  by_cases hk : a = k
  · subst hk
    rw [alookup_aupsert_self] at h
    exact Or.inl ⟨rfl, (Option.some_inj.mp h).symm⟩
  · rw [alookup_aupsert_ne _ _ _ _ hk] at h
    exact Or.inr h

theorem scopedStore_lookup_cases (dc : DC) (s0 : String) (u : Ty) (v : Val)
    (s : String) (t : Ty) (w : Val)
    (h : scopedLookup (scopedStore dc s0 u v) s t = some w) :
    (s = s0 ∧ t = u ∧ w = v) ∨ scopedLookup dc s t = some w := by
  unfold scopedStore at h
  by_cases hs : s = s0
  · subst hs
    simp only [scopedLookup, alookup_aupsert_self] at h
    rcases alookup_aupsert_cases _ _ _ _ _ h with ⟨h1, h2⟩ | h2
    · exact Or.inl ⟨rfl, h1, h2⟩
    · right
      unfold scopedLookup
      cases hpart : alookup dc.scopedInstances s with
      | none => rw [hpart] at h2; simp [alookup] at h2
      | some part => rw [hpart] at h2; exact h2
  · simp only [scopedLookup, alookup_aupsert_ne _ _ _ _ hs] at h
    right
    unfold scopedLookup
    exact h

theorem ctorCall_stamps (dc : DC) (t : Ty) (reg : Registration) (hs : StampsBelow dc) :
    StampsBelow (ctorCall dc t reg).1 ∧
    (∀ v, (ctorCall dc t reg).2 = .ok v → ValBelow v (ctorCall dc t reg).1.fresh) := by
  obtain ⟨h1, h2⟩ := hs
  cases hr : reg.behavior.resultAt (dc.log.count reg.cid) <;> simp only [ctorCall, hr]
  · constructor
    · constructor
      · intro u v hv
        exact valBelow_mono (h1 u v hv) (Nat.le_succ _)
      · intro s u v hv
        exact valBelow_mono (h2 s u v hv) (Nat.le_succ _)
    · intro v hv
      cases hv
      intro t' s' c' he
      cases he
      exact Nat.lt_succ_self _
  · constructor
    · exact ⟨h1, h2⟩
    · intro v hv
      cases hv
      exact valBelow_nil _
  · constructor
    · exact ⟨h1, h2⟩
    · intro v hv
      cases hv

theorem resolveParams_stamps (resolve : ResolveFn) (scopeID : String)
    (hres : ∀ dc u stack, StampsBelow dc →
      StampsBelow (resolve dc u scopeID stack).1 ∧
      (∀ v, (resolve dc u scopeID stack).2 = .ok v →
        ValBelow v (resolve dc u scopeID stack).1.fresh)) :
    ∀ ps dc idx stack, StampsBelow dc →
      StampsBelow (resolveParams resolve dc ps idx scopeID stack).1 := by
  intro ps
  induction ps with
  | nil => intro dc idx stack hs; exact hs
  | cons p rest ih =>
    intro dc idx stack hs
    have h1 := (hres dc p stack hs).1
    simp only [resolveParams]
    split
    · next dc1 e heq => rw [heq] at h1; exact h1
    · next dc1 v heq =>
      rw [heq] at h1
      have h2 := ih dc1 (idx + 1) stack h1
      split
      · next dc2 e2 heq2 => rw [heq2] at h2; exact h2
      · next dc2 vs heq2 => rw [heq2] at h2; exact h2

theorem invokeCtor_stamps (resolve : ResolveFn) (scopeID : String)
    (hres : ∀ dc u stack, StampsBelow dc →
      StampsBelow (resolve dc u scopeID stack).1 ∧
      (∀ v, (resolve dc u scopeID stack).2 = .ok v →
        ValBelow v (resolve dc u scopeID stack).1.fresh))
    (dc : DC) (t : Ty) (reg : Registration) (stack : List Ty) (hs : StampsBelow dc) :
    StampsBelow (invokeCtor resolve dc t reg scopeID stack).1 ∧
    (∀ v, (invokeCtor resolve dc t reg scopeID stack).2 = .ok v →
      ValBelow v (invokeCtor resolve dc t reg scopeID stack).1.fresh) := by
  have h1 := resolveParams_stamps resolve scopeID hres reg.paramTypes dc 1 stack hs
  simp only [invokeCtor]
  split
  · next dc1 e heq =>
    rw [heq] at h1
    exact ⟨h1, fun v hv => by cases hv⟩
  · next dc1 args heq =>
    rw [heq] at h1
    exact ctorCall_stamps dc1 t reg h1

theorem ensureScope_stamps (dc : DC) (s0 : String) (hs : StampsBelow dc) :
    StampsBelow (ensureScope dc s0) := by
  have hlook := fun s t => ensureScope_scopedLookup dc s0 s t
  constructor
  · intro t v hv
    have hd : (ensureScope dc s0).dependencies = dc.dependencies := by
      unfold ensureScope
      cases h : alookup dc.scopedInstances s0 <;> rfl
    have hf : (ensureScope dc s0).fresh = dc.fresh := by
      unfold ensureScope
      cases h : alookup dc.scopedInstances s0 <;> rfl
    rw [hd] at hv
    rw [hf]
    exact hs.1 t v hv
  · intro s t v hv
    have hf : (ensureScope dc s0).fresh = dc.fresh := by
      unfold ensureScope
      cases h : alookup dc.scopedInstances s0 <;> rfl
    rw [hlook s t] at hv
    rw [hf]
    exact hs.2 s t v hv

theorem resolveSingleton_stamps (resolve : ResolveFn) (scopeID : String)
    (hres : ∀ dc u stack, StampsBelow dc →
      StampsBelow (resolve dc u scopeID stack).1 ∧
      (∀ v, (resolve dc u scopeID stack).2 = .ok v →
        ValBelow v (resolve dc u scopeID stack).1.fresh))
    (dc : DC) (t : Ty) (reg : Registration) (stack : List Ty) (hs : StampsBelow dc) :
    StampsBelow (resolveSingleton resolve dc t reg scopeID stack).1 ∧
    (∀ v, (resolveSingleton resolve dc t reg scopeID stack).2 = .ok v →
      ValBelow v (resolveSingleton resolve dc t reg scopeID stack).1.fresh) := by
  simp only [resolveSingleton]
  split
  · next dep heq =>
    refine ⟨hs, fun v hv => ?_⟩
    cases hv
    exact hs.1 t dep heq
  · by_cases hip : t ∈ dc.inProgress
    · simp only [if_pos hip]
      exact ⟨hs, fun v hv => by cases hv⟩
    · simp only [if_neg hip]
      have hsm : StampsBelow { dc with inProgress := t :: dc.inProgress } := hs
      have h1 := invokeCtor_stamps resolve scopeID hres
        { dc with inProgress := t :: dc.inProgress } t reg stack hsm
      split
      · next dc1 e heq =>
        rw [heq] at h1
        exact ⟨h1.1, fun v hv => by cases hv⟩
      · next dc1 v heq =>
        rw [heq] at h1
        obtain ⟨hs1, hval⟩ := h1
        have hv1 : ValBelow v dc1.fresh := hval v rfl
        refine ⟨⟨?_, ?_⟩, ?_⟩
        · intro u w hw
          rcases alookup_aupsert_cases _ _ _ _ _ hw with ⟨_, hwv⟩ | hold
          · subst hwv; exact hv1
          · exact hs1.1 u w hold
        · intro s u w hw
          exact hs1.2 s u w hw
        · intro w hw
          cases hw
          exact hv1

theorem resolveScoped_stamps (resolve : ResolveFn) (scopeID : String)
    (hres : ∀ dc u stack, StampsBelow dc →
      StampsBelow (resolve dc u scopeID stack).1 ∧
      (∀ v, (resolve dc u scopeID stack).2 = .ok v →
        ValBelow v (resolve dc u scopeID stack).1.fresh))
    (dc : DC) (t : Ty) (reg : Registration) (stack : List Ty) (hs : StampsBelow dc) :
    StampsBelow (resolveScoped resolve dc t reg scopeID stack).1 ∧
    (∀ v, (resolveScoped resolve dc t reg scopeID stack).2 = .ok v →
      ValBelow v (resolveScoped resolve dc t reg scopeID stack).1.fresh) := by
  simp only [resolveScoped]
  by_cases hempty : scopeID = ""
  · simp only [if_pos hempty]
    exact ⟨hs, fun v hv => by cases hv⟩
  · simp only [if_neg hempty]
    split
    · next dep heq =>
      refine ⟨hs, fun v hv => ?_⟩
      cases hv
      exact hs.2 scopeID t dep heq
    · have hs0 := ensureScope_stamps dc scopeID hs
      have h1 := invokeCtor_stamps resolve scopeID hres (ensureScope dc scopeID) t reg stack hs0
      split
      · next dc1 e heq =>
        rw [heq] at h1
        exact ⟨h1.1, fun v hv => by cases hv⟩
      · next dc1 v heq =>
        rw [heq] at h1
        obtain ⟨hs1, hval⟩ := h1
        have hv1 : ValBelow v dc1.fresh := hval v rfl
        refine ⟨⟨?_, ?_⟩, ?_⟩
        · intro u w hw
          exact hs1.1 u w hw
        · intro s u w hw
          rcases scopedStore_lookup_cases dc1 scopeID t v s u w hw with ⟨_, _, hwv⟩ | hold
          · subst hwv; exact hv1
          · exact hs1.2 s u w hold
        · intro w hw
          cases hw
          exact hv1

theorem resolveWithScope_stamps :
    ∀ (fuel : Nat) (dc : DC) (t : Ty) (scopeID : String) (stack : List Ty),
    StampsBelow dc →
    StampsBelow (resolveWithScope fuel dc t scopeID stack).1 ∧
    (∀ v, (resolveWithScope fuel dc t scopeID stack).2 = .ok v →
      ValBelow v (resolveWithScope fuel dc t scopeID stack).1.fresh) := by
  intro fuel
  induction fuel with
  | zero => intro dc t scopeID stack hs; exact ⟨hs, fun v hv => by cases hv⟩
  | succ fuel ih =>
    intro dc t scopeID stack hs
    simp only [resolveWithScope]
    split
    · next concreteType heq => exact ih dc concreteType scopeID stack hs
    · by_cases hcyc : t ∈ stack
      · simp only [if_pos hcyc]
        exact ⟨hs, fun v hv => by cases hv⟩
      · simp only [if_neg hcyc]
        split
        · exact ⟨hs, fun v hv => by cases hv⟩
        · next registration heq2 =>
          split
          · exact resolveSingleton_stamps _ _ (fun a b c => ih a b scopeID c) dc t registration (stack ++ [t]) hs
          · exact invokeCtor_stamps _ _ (fun a b c => ih a b scopeID c) dc t registration (stack ++ [t]) hs
          · exact resolveScoped_stamps _ _ (fun a b c => ih a b scopeID c) dc t registration (stack ++ [t]) hs

theorem resolveWithScope_singleton_eq (fuel : Nat) (dc : DC) (t : Ty) (reg : Registration)
    (scopeID : String) (stack : List Ty)
    (hif : t.isIface = false) (hcyc : t ∉ stack)
    (hreg : alookup dc.constructors t = some reg) (hsc : reg.scope = .Singleton) :
    resolveWithScope (fuel + 1) dc t scopeID stack =
      resolveSingleton (resolveWithScope fuel) dc t reg scopeID (stack ++ [t]) := by
  simp [resolveWithScope, hif, hreg, hcyc, hsc]

theorem resolveWithScope_transient_eq (fuel : Nat) (dc : DC) (t : Ty) (reg : Registration)
    (scopeID : String) (stack : List Ty)
    (hif : t.isIface = false) (hcyc : t ∉ stack)
    (hreg : alookup dc.constructors t = some reg) (hsc : reg.scope = .Transient) :
    resolveWithScope (fuel + 1) dc t scopeID stack =
      resolveTransient (resolveWithScope fuel) dc t reg scopeID (stack ++ [t]) := by
  simp [resolveWithScope, hif, hreg, hcyc, hsc]

theorem resolveWithScope_scoped_eq (fuel : Nat) (dc : DC) (t : Ty) (reg : Registration)
    (scopeID : String) (stack : List Ty)
    (hif : t.isIface = false) (hcyc : t ∉ stack)
    (hreg : alookup dc.constructors t = some reg) (hsc : reg.scope = .Scoped) :
    resolveWithScope (fuel + 1) dc t scopeID stack =
      resolveScoped (resolveWithScope fuel) dc t reg scopeID (stack ++ [t]) := by
  simp [resolveWithScope, hif, hreg, hcyc, hsc]

theorem singleton_cache_hit (fuel : Nat) (dc : DC) (t : Ty) (reg : Registration) (v : Val)
    (scopeID : String)
    (hif : t.isIface = false) (hreg : alookup dc.constructors t = some reg)
    (hsc : reg.scope = .Singleton) (hdep : alookup dc.dependencies t = some v) :
    resolveWithScope (fuel + 1) dc t scopeID [] = (dc, .ok v) := by
  rw [resolveWithScope_singleton_eq fuel dc t reg scopeID [] hif (by simp) hreg hsc]
  simp [resolveSingleton, hdep]

theorem scoped_cache_hit (fuel : Nat) (dc : DC) (t : Ty) (reg : Registration) (v : Val)
    (scopeID : String)
    (hif : t.isIface = false) (hreg : alookup dc.constructors t = some reg)
    (hsc : reg.scope = .Scoped) (hsid : scopeID ≠ "")
    (hdep : scopedLookup dc scopeID t = some v) :
    resolveWithScope (fuel + 1) dc t scopeID [] = (dc, .ok v) := by
  rw [resolveWithScope_scoped_eq fuel dc t reg scopeID [] hif (by simp) hreg hsc]
  simp [resolveScoped, hsid, hdep]

theorem ctorCall_plan_nil (dc : DC) (t : Ty) (reg : Registration)
    (hb : reg.behavior.plan = []) :
    ctorCall dc t reg =
      ({ dc with log := dc.log ++ [reg.cid], fresh := dc.fresh + 1 },
        .ok (.obj t dc.fresh reg.cid)) := by
  simp [ctorCall, CtorBehavior.resultAt, hb]

theorem ctorCall_ok_fields (dc : DC) (t : Ty) (reg : Registration) (dcI : DC) (w : Val)
    (h : ctorCall dc t reg = (dcI, .ok w)) :
    dcI.dependencies = dc.dependencies ∧ dcI.scopedInstances = dc.scopedInstances ∧
    dcI.inProgress = dc.inProgress ∧ dcI.log = dc.log ++ [reg.cid] ∧
    dcI.constructors = dc.constructors ∧ dc.fresh ≤ dcI.fresh := by
  cases hres : reg.behavior.resultAt (dc.log.count reg.cid) <;>
    simp only [ctorCall, hres] at h
  · obtain ⟨h1, _⟩ := Prod.mk.injEq .. ▸ h
    subst h1
    exact ⟨rfl, rfl, rfl, rfl, rfl, Nat.le_succ _⟩
  · obtain ⟨h1, _⟩ := Prod.mk.injEq .. ▸ h
    subst h1
    exact ⟨rfl, rfl, rfl, rfl, rfl, Nat.le_refl _⟩
  · exact absurd h (by simp)

theorem ctorCall_ok_cases (dc : DC) (t : Ty) (reg : Registration) (dcI : DC) (w : Val)
    (h : ctorCall dc t reg = (dcI, .ok w)) :
    (reg.behavior.resultAt (dc.log.count reg.cid) = .nilValue ∧ w = .nil ∧
      dcI.fresh = dc.fresh) ∨
    (reg.behavior.resultAt (dc.log.count reg.cid) = .value ∧
      w = .obj t dc.fresh reg.cid ∧ dcI.fresh = dc.fresh + 1) := by
  cases hres : reg.behavior.resultAt (dc.log.count reg.cid) <;>
    simp only [ctorCall, hres] at h
  · obtain ⟨h1, h2⟩ := Prod.mk.injEq .. ▸ h
    subst h1
    exact Or.inr ⟨rfl, (Except.ok.injEq .. ▸ h2).symm, rfl⟩
  · obtain ⟨h1, h2⟩ := Prod.mk.injEq .. ▸ h
    subst h1
    exact Or.inl ⟨rfl, (Except.ok.injEq .. ▸ h2).symm, rfl⟩
  · exact absurd h (by simp)

theorem ctorCall_err_fields (dc : DC) (t : Ty) (reg : Registration) (dcI : DC) (e : Err)
    (h : ctorCall dc t reg = (dcI, .error e)) :
    dcI.dependencies = dc.dependencies ∧ dcI.scopedInstances = dc.scopedInstances ∧
    dcI.inProgress = dc.inProgress ∧ dcI.log = dc.log ++ [reg.cid] ∧
    dcI.constructors = dc.constructors ∧ dcI.fresh = dc.fresh ∧
    ∃ code, e = .goErr code ∧
      reg.behavior.resultAt (dc.log.count reg.cid) = .failure code := by
  cases hres : reg.behavior.resultAt (dc.log.count reg.cid) <;>
    simp only [ctorCall, hres] at h
  · exact absurd h (by simp)
  · exact absurd h (by simp)
  · next code =>
    obtain ⟨h1, h2⟩ := Prod.mk.injEq .. ▸ h
    subst h1
    refine ⟨rfl, rfl, rfl, rfl, rfl, rfl, code, ?_, rfl⟩
    exact (Except.error.injEq .. ▸ h2).symm

theorem invokeCtor_ok_parts (resolve : ResolveFn) (dc : DC) (t : Ty) (reg : Registration)
    (scopeID : String) (stack : List Ty) (dcI : DC) (w : Val)
    (h : invokeCtor resolve dc t reg scopeID stack = (dcI, .ok w)) :
    ∃ dcp args, resolveParams resolve dc reg.paramTypes 1 scopeID stack = (dcp, .ok args) ∧
      ctorCall dcp t reg = (dcI, .ok w) := by
  simp only [invokeCtor] at h
  split at h
  · next dcp e heq => exact absurd h (by simp)
  · next dcp args heq => exact ⟨dcp, args, heq, h⟩

theorem resolveParams_err_shape (resolve : ResolveFn) :
    ∀ (ps : List Ty) (dc : DC) (idx : Nat) (scopeID : String) (stack : List Ty) (dcp : DC) (e : Err),
    resolveParams resolve dc ps idx scopeID stack = (dcp, .error e) →
    ∃ a i inner, e = .paramResolve a i inner := by
  intro ps
  induction ps with
  | nil =>
    intro dc idx scopeID stack dcp e h
    exact absurd h (by simp [resolveParams])
  | cons p rest ih =>
    intro dc idx scopeID stack dcp e h
    simp only [resolveParams] at h
    split at h
    · next dc1 e1 heq =>
      obtain ⟨_, h2⟩ := Prod.mk.injEq .. ▸ h
      exact ⟨p, idx, e1, (Except.error.injEq .. ▸ h2).symm⟩
    · next dc1 v heq =>
      split at h
      · next dc2 e2 heq2 =>
        obtain ⟨_, h2⟩ := Prod.mk.injEq .. ▸ h
        have he : e2 = e := Except.error.injEq .. ▸ h2
        exact he ▸ ih dc1 (idx + 1) scopeID stack dc2 e2 heq2
      · next dc2 vs heq2 => exact absurd h (by simp)

theorem invokeCtor_goErr_parts (resolve : ResolveFn) (dc : DC) (t : Ty) (reg : Registration)
    (scopeID : String) (stack : List Ty) (dcI : DC) (code : Nat)
    (h : invokeCtor resolve dc t reg scopeID stack = (dcI, .error (.goErr code))) :
    ∃ dcp args, resolveParams resolve dc reg.paramTypes 1 scopeID stack = (dcp, .ok args) ∧
      ctorCall dcp t reg = (dcI, .error (.goErr code)) := by
  simp only [invokeCtor] at h
  split at h
  · next dcp e heq =>
    obtain ⟨_, h2⟩ := Prod.mk.injEq .. ▸ h
    have he : e = Err.goErr code := Except.error.injEq .. ▸ h2
    obtain ⟨a, i, inner, hshape⟩ := resolveParams_err_shape resolve reg.paramTypes dc 1 scopeID stack dcp e heq
    rw [hshape] at he
    cases he
  · next dcp args heq => exact ⟨dcp, args, heq, h⟩

theorem scopedStore_lookup_self (dc : DC) (s : String) (t : Ty) (v : Val) :
    scopedLookup (scopedStore dc s t v) s t = some v := by
  simp [scopedStore, scopedLookup, alookup_aupsert_self]

theorem resolveSingleton_build_ok (resolve : ResolveFn) (dc : DC) (t : Ty) (reg : Registration)
    (scopeID : String) (stack : List Ty) (dc1 : DC) (v : Val)
    (hmiss : alookup dc.dependencies t = none) (hip : t ∉ dc.inProgress)
    (h : resolveSingleton resolve dc t reg scopeID stack = (dc1, .ok v)) :
    ∃ dcI, invokeCtor resolve { dc with inProgress := t :: dc.inProgress } t reg scopeID stack
        = (dcI, .ok v) ∧
      dc1 = { dcI with dependencies := aupsert dcI.dependencies t v,
                       inProgress := dcI.inProgress.erase t } := by
  simp only [resolveSingleton, hmiss, if_neg hip] at h
  split at h
  · next dcI e heq => exact absurd h (by simp)
  · next dcI w heq =>
    obtain ⟨h1, h2⟩ := Prod.mk.injEq .. ▸ h
    have hv : w = v := Except.ok.injEq .. ▸ h2
    subst hv
    exact ⟨dcI, heq, h1.symm⟩

theorem resolveSingleton_build_err (resolve : ResolveFn) (dc : DC) (t : Ty) (reg : Registration)
    (scopeID : String) (stack : List Ty) (dc1 : DC) (e : Err)
    (hmiss : alookup dc.dependencies t = none) (hip : t ∉ dc.inProgress)
    (h : resolveSingleton resolve dc t reg scopeID stack = (dc1, .error e)) :
    ∃ dcI, invokeCtor resolve { dc with inProgress := t :: dc.inProgress } t reg scopeID stack
        = (dcI, .error e) ∧
      dc1 = { dcI with inProgress := dcI.inProgress.erase t } := by
  simp only [resolveSingleton, hmiss, if_neg hip] at h
  split at h
  · next dcI e0 heq =>
    obtain ⟨h1, h2⟩ := Prod.mk.injEq .. ▸ h
    have he : e0 = e := Except.error.injEq .. ▸ h2
    subst he
    exact ⟨dcI, heq, h1.symm⟩
  · next dcI w heq => exact absurd h (by simp)

theorem resolveScoped_build_ok (resolve : ResolveFn) (dc : DC) (t : Ty) (reg : Registration)
    (scopeID : String) (stack : List Ty) (dc1 : DC) (v : Val)
    (hsid : scopeID ≠ "") (hmiss : scopedLookup dc scopeID t = none)
    (h : resolveScoped resolve dc t reg scopeID stack = (dc1, .ok v)) :
    ∃ dcI, invokeCtor resolve (ensureScope dc scopeID) t reg scopeID stack = (dcI, .ok v) ∧
      dc1 = scopedStore dcI scopeID t v := by
  simp only [resolveScoped, if_neg hsid, hmiss] at h
  split at h
  · next dcI e heq => exact absurd h (by simp)
  · next dcI w heq =>
    obtain ⟨h1, h2⟩ := Prod.mk.injEq .. ▸ h
    have hv : w = v := Except.ok.injEq .. ▸ h2
    subst hv
    exact ⟨dcI, heq, h1.symm⟩

/-- C1: for a registered unnamed Singleton type, the first (successful)
resolve constructs the value, stores it in the singleton cache and invokes
the underlying constructor exactly once; every later resolve returns the
cached value without touching the container, so resolving N >= 1 times
yields the same instance every time with exactly one constructor
invocation. -/
theorem singleton_resolve_idempotent
    (fuel : Nat) (dc dc1 : DC) (t : Ty) (reg : Registration) (v : Val)
    (hif : t.isIface = false)
    (hreg : alookup dc.constructors t = some reg)
    (hsc : reg.scope = .Singleton)
    (hmiss : alookup dc.dependencies t = none)
    (hip : t ∉ dc.inProgress)
    (hcid : CidUnique dc.constructors reg.cid t)
    (hrun : resolveWithScope fuel dc t "" [] = (dc1, .ok v)) :
    alookup dc1.dependencies t = some v ∧
    dc1.log.count reg.cid = dc.log.count reg.cid + 1 ∧
    (∀ f2, resolveWithScope (f2 + 1) dc1 t "" [] = (dc1, .ok v)) ∧
    (∀ n, resolveNTimes fuel dc t (n + 1) = (dc1, .ok v)) := by
  cases fuel with
  | zero => exact absurd hrun (by simp [resolveWithScope])
  | succ f =>
  have hrun0 : resolveWithScope (f + 1) dc t "" [] = (dc1, .ok v) := hrun
  rw [resolveWithScope_singleton_eq f dc t reg "" [] hif (by simp) hreg hsc,
    List.nil_append] at hrun
  obtain ⟨dcI, hinv, hdc1⟩ := resolveSingleton_build_ok _ _ _ _ _ _ _ _ hmiss hip hrun
  obtain ⟨dcp, args, hp, hcc⟩ := invokeCtor_ok_parts _ _ _ _ _ _ _ _ hinv
  have hpre := resolveParams_preserve (resolveWithScope f) "" t reg.cid
      (fun a b c => (resolveWithScope_frame f a b "" c).1)
      (fun a b c hcu hmem => resolveWithScope_preserve t reg.cid f a b "" c hcu hmem)
      reg.paramTypes { dc with inProgress := t :: dc.inProgress } 1 [t] hcid (by simp)
  rw [hp] at hpre
  obtain ⟨hdep_p, hsc_p, hcount_p, hip_p⟩ := hpre
  obtain ⟨hccdep, hccscoped, hccip, hcclog, hccctors, hccfresh⟩ :=
    ctorCall_ok_fields dcp t reg dcI v hcc
  have hframe_p := resolveParams_frame (resolveWithScope f) ""
      (fun a b c => resolveWithScope_frame f a b "" c)
      reg.paramTypes { dc with inProgress := t :: dc.inProgress } 1 [t]
  rw [hp] at hframe_p
  have hctors1 : dc1.constructors = dc.constructors := by
    rw [hdc1]
    show dcI.constructors = dc.constructors
    rw [hccctors, hframe_p.1]
  have hstore : alookup dc1.dependencies t = some v := by
    rw [hdc1]
    exact alookup_aupsert_self _ _ _
  have hcount : dc1.log.count reg.cid = dc.log.count reg.cid + 1 := by
    rw [hdc1]
    show dcI.log.count reg.cid = dc.log.count reg.cid + 1
    rw [hcclog, List.count_append, hcount_p]
    simp [List.count_cons]
  have hhit : ∀ f2, resolveWithScope (f2 + 1) dc1 t "" [] = (dc1, .ok v) := by
    intro f2
    exact singleton_cache_hit f2 dc1 t reg v "" hif (by rw [hctors1]; exact hreg) hsc hstore
  refine ⟨hstore, hcount, hhit, ?_⟩
  have hrepeat : ∀ n, resolveNTimes (f + 1) dc1 t (n + 1) = (dc1, .ok v) := by
    intro n
    induction n with
    | zero => exact hhit f
    | succ m ihm =>
      show resolveNTimes (f + 1) (containerResolve (f + 1) dc1 t).1 t (m + 1) = (dc1, .ok v)
      rw [show containerResolve (f + 1) dc1 t = (dc1, .ok v) from hhit f]
      exact ihm
  intro n
  cases n with
  | zero => exact hrun0
  | succ m =>
    show resolveNTimes (f + 1) (containerResolve (f + 1) dc t).1 t (m + 1) = (dc1, .ok v)
    rw [show containerResolve (f + 1) dc t = (dc1, .ok v) from hrun0]
    exact hrepeat m

theorem singleton_resolve_idempotent_witness :
    alookup dcW1after.dependencies tyWA = some vW1 ∧
    dcW1after.log.count regW1.cid = dcW1.log.count regW1.cid + 1 ∧
    resolveWithScope 4 dcW1after tyWA "" [] = (dcW1after, .ok vW1) ∧
    resolveNTimes 3 dcW1 tyWA 3 = (dcW1after, .ok vW1) := by
  have h := singleton_resolve_idempotent 3 dcW1 dcW1after tyWA regW1 vW1
    rfl rfl rfl rfl (by decide)
    (by
      intro u r hh _
      by_cases hu : tyWA = u
      · exact hu.symm
      · simp [dcW1, newDC, alookup, hu] at hh)
    (by rfl)
  exact ⟨h.1, h.2.1, h.2.2.1 3, h.2.2.2 2⟩

/-- C3: resolving a Transient-registered type never reads or writes any
cache tier for that type: across two consecutive successful resolves the
singleton entry, every scope partition entry and the named tiers are
untouched at that type, while the constructor is invoked once per call. -/
theorem transient_resolve_no_cache
    (fuel fuel2 : Nat) (dc dc1 dc2 : DC) (t : Ty) (reg : Registration) (v1 v2 : Val)
    (sc : String)
    (hif : t.isIface = false)
    (hreg : alookup dc.constructors t = some reg)
    (hsc : reg.scope = .Transient)
    (hcid : CidUnique dc.constructors reg.cid t)
    (h1 : resolveWithScope fuel dc t sc [] = (dc1, .ok v1))
    (h2 : resolveWithScope fuel2 dc1 t sc [] = (dc2, .ok v2)) :
    alookup dc1.dependencies t = alookup dc.dependencies t ∧
    alookup dc2.dependencies t = alookup dc.dependencies t ∧
    (∀ s, scopedLookup dc1 s t = scopedLookup dc s t) ∧
    (∀ s, scopedLookup dc2 s t = scopedLookup dc s t) ∧
    dc1.namedDependencies = dc.namedDependencies ∧
    dc2.namedDependencies = dc.namedDependencies ∧
    dc1.namedScopedInstances = dc.namedScopedInstances ∧
    dc2.namedScopedInstances = dc.namedScopedInstances ∧
    dc1.log.count reg.cid = dc.log.count reg.cid + 1 ∧
    dc2.log.count reg.cid = dc.log.count reg.cid + 2 := by
  have run : ∀ (f : Nat) (d d' : DC) (w : Val),
      alookup d.constructors t = some reg →
      CidUnique d.constructors reg.cid t →
      resolveWithScope f d t sc [] = (d', .ok w) →
      alookup d'.dependencies t = alookup d.dependencies t ∧
      (∀ s, scopedLookup d' s t = scopedLookup d s t) ∧
      d'.namedDependencies = d.namedDependencies ∧
      d'.namedScopedInstances = d.namedScopedInstances ∧
      d'.log.count reg.cid = d.log.count reg.cid + 1 ∧
      d'.constructors = d.constructors := by
    intro f d d' w hregd hcidd hrund
    cases f with
    | zero => exact absurd hrund (by simp [resolveWithScope])
    | succ g =>
    rw [resolveWithScope_transient_eq g d t reg sc [] hif (by simp) hregd hsc,
      List.nil_append] at hrund
    have hfr := invokeCtor_frame (resolveWithScope g) sc
      (fun a b c => resolveWithScope_frame g a b sc c) d t reg [t]
    rw [show resolveTransient (resolveWithScope g) d t reg sc [t]
        = invokeCtor (resolveWithScope g) d t reg sc [t] from rfl] at hrund
    rw [hrund] at hfr
    obtain ⟨dcp, args, hp, hcc⟩ := invokeCtor_ok_parts _ _ _ _ _ _ _ _ hrund
    have hpre := resolveParams_preserve (resolveWithScope g) sc t reg.cid
        (fun a b c => (resolveWithScope_frame g a b sc c).1)
        (fun a b c hcu hmem => resolveWithScope_preserve t reg.cid g a b sc c hcu hmem)
        reg.paramTypes d 1 [t] hcidd (by simp)
    rw [hp] at hpre
    obtain ⟨hdep_p, hsc_p, hcount_p, _⟩ := hpre
    obtain ⟨hccdep, hccscoped, _, hcclog, _, _⟩ := ctorCall_ok_fields dcp t reg d' w hcc
    refine ⟨?_, ?_, hfr.2.2.2.2.1, hfr.2.2.2.2.2.1, ?_, hfr.1⟩
    · rw [hccdep, hdep_p]
    · intro s
      have : scopedLookup d' s t = scopedLookup dcp s t := by
        unfold scopedLookup
        rw [hccscoped]
      rw [this, hsc_p]
    · rw [hcclog, List.count_append, hcount_p]
      simp [List.count_cons]
  obtain ⟨a1, b1, c1, d1, e1, f1⟩ := run fuel dc dc1 v1 hreg hcid h1
  have hreg1 : alookup dc1.constructors t = some reg := by rw [f1]; exact hreg
  have hcid1 : CidUnique dc1.constructors reg.cid t := by rw [f1]; exact hcid
  obtain ⟨a2, b2, c2, d2, e2, f2⟩ := run fuel2 dc1 dc2 v2 hreg1 hcid1 h2
  refine ⟨a1, a2.trans a1, b1, fun s => (b2 s).trans (b1 s), c1, c2.trans c1,
    d1, d2.trans d1, e1, ?_⟩
  rw [e2, e1]

/-- C5: when the user constructor of a Singleton registration returns a
non-nil error, resolve fails with exactly that error, no cache tier gains
an entry for the type, the in-progress marker is fully cleared, the
constructor was invoked exactly once, and a later resolve again reaches the
singleton builder (retry is allowed). -/
theorem ctor_error_no_cache_no_marker
    (fuel : Nat) (dc dc1 : DC) (t : Ty) (reg : Registration) (code : Nat)
    (hif : t.isIface = false)
    (hreg : alookup dc.constructors t = some reg)
    (hsc : reg.scope = .Singleton)
    (hcid : CidUnique dc.constructors reg.cid t)
    (hrun : resolveWithScope fuel dc t "" [] = (dc1, .error (.goErr code))) :
    reg.behavior.resultAt (dc.log.count reg.cid) = .failure code ∧
    alookup dc.dependencies t = none ∧
    alookup dc1.dependencies t = none ∧
    (∀ s, scopedLookup dc1 s t = scopedLookup dc s t) ∧
    dc1.namedDependencies = dc.namedDependencies ∧
    dc1.namedScopedInstances = dc.namedScopedInstances ∧
    t ∉ dc.inProgress ∧
    t ∉ dc1.inProgress ∧
    dc1.log.count reg.cid = dc.log.count reg.cid + 1 ∧
    (∀ f2, resolveWithScope (f2 + 1) dc1 t "" [] =
      resolveSingleton (resolveWithScope f2) dc1 t reg "" [t]) := by
  cases fuel with
  | zero => simp [resolveWithScope] at hrun
  | succ f =>
  rw [resolveWithScope_singleton_eq f dc t reg "" [] hif (by simp) hreg hsc,
    List.nil_append] at hrun
  cases hmiss : alookup dc.dependencies t with
  | some w => simp [resolveSingleton, hmiss] at hrun
  | none =>
  by_cases hip : t ∈ dc.inProgress
  · simp [resolveSingleton, hmiss, hip] at hrun
  obtain ⟨dcI, hinv, hdc1⟩ := resolveSingleton_build_err _ _ _ _ _ _ _ _ hmiss hip hrun
  have hfr := invokeCtor_frame (resolveWithScope f) ""
    (fun a b c => resolveWithScope_frame f a b "" c)
    { dc with inProgress := t :: dc.inProgress } t reg [t]
  rw [hinv] at hfr
  obtain ⟨dcp, args, hp, hcc⟩ := invokeCtor_goErr_parts _ _ _ _ _ _ _ _ hinv
  have hpre := resolveParams_preserve (resolveWithScope f) "" t reg.cid
      (fun a b c => (resolveWithScope_frame f a b "" c).1)
      (fun a b c hcu hmem => resolveWithScope_preserve t reg.cid f a b "" c hcu hmem)
      reg.paramTypes { dc with inProgress := t :: dc.inProgress } 1 [t] hcid (by simp)
  rw [hp] at hpre
  obtain ⟨hdep_p, hsc_p, hcount_p, hip_p⟩ := hpre
  obtain ⟨hccdep, hccscoped, hccip, hcclog, hccctors, hccfresh, code0, hcode, hplan⟩ :=
    ctorCall_err_fields dcp t reg dcI (.goErr code) hcc
  have hcode0 : code0 = code := by
    cases hcode
    rfl
  subst hcode0
  have hctors1 : dc1.constructors = dc.constructors := by
    rw [hdc1]
    show dcI.constructors = dc.constructors
    exact hfr.1
  have hcountm : dcp.log.count reg.cid = dc.log.count reg.cid := hcount_p
  constructor
  · rw [← hcountm]
    exact hplan
  refine ⟨rfl, ?_, ?_, ?_, ?_, hip, ?_, ?_, ?_⟩
  · rw [hdc1]
    show alookup dcI.dependencies t = none
    rw [hccdep, hdep_p]
    exact hmiss
  · intro s
    rw [hdc1]
    show scopedLookup { dcI with inProgress := dcI.inProgress.erase t } s t = scopedLookup dc s t
    have h1 : scopedLookup { dcI with inProgress := dcI.inProgress.erase t } s t
        = scopedLookup dcI s t := rfl
    have h2 : scopedLookup dcI s t = scopedLookup dcp s t := by
      unfold scopedLookup
      rw [hccscoped]
    rw [h1, h2, hsc_p]
    rfl
  · rw [hdc1]
    show dcI.namedDependencies = dc.namedDependencies
    exact hfr.2.2.2.2.1
  · rw [hdc1]
    show dcI.namedScopedInstances = dc.namedScopedInstances
    exact hfr.2.2.2.2.2.1
  · rw [hdc1]
    show t ∉ dcI.inProgress.erase t
    have hc0 : dc.inProgress.count t = 0 := List.count_eq_zero.mpr hip
    have hcm : ({ dc with inProgress := t :: dc.inProgress } : DC).inProgress.count t
        = dc.inProgress.count t + 1 := by simp [List.count_cons]
    have hcp : dcp.inProgress.count t = 1 := by
      rw [hip_p, hcm, hc0]
    have hcI : dcI.inProgress.count t = 1 := by
      rw [hccip]
      exact hcp
    have : (dcI.inProgress.erase t).count t = 0 := by
      rw [List.count_erase_self, hcI]
    intro hmem
    have := List.count_pos_iff.mpr hmem
    simp_all
  · rw [hdc1]
    show dcI.log.count reg.cid = dc.log.count reg.cid + 1
    rw [hcclog, List.count_append, hcountm]
    simp [List.count_cons]
  · intro f2
    exact resolveWithScope_singleton_eq f2 dc1 t reg "" [] hif (by simp)
      (by rw [hctors1]; exact hreg) hsc

theorem ensureScope_constructors (dc : DC) (s : String) :
    (ensureScope dc s).constructors = dc.constructors := by
  unfold ensureScope
  cases h : alookup dc.scopedInstances s <;> rfl

theorem ensureScope_log (dc : DC) (s : String) : (ensureScope dc s).log = dc.log := by
  unfold ensureScope
  cases h : alookup dc.scopedInstances s <;> rfl

theorem ensureScope_fresh (dc : DC) (s : String) : (ensureScope dc s).fresh = dc.fresh := by
  unfold ensureScope
  cases h : alookup dc.scopedInstances s <;> rfl

theorem destroyScope_scopedLookup_ne (dc : DC) (s s' : String) (t : Ty) (h : s' ≠ s) :
    scopedLookup (destroyScope dc s) s' t = scopedLookup dc s' t := by
  unfold destroyScope scopedLookup
  rw [alookup_aremove_ne _ _ _ h]

/-- C4: for a Scoped registration, resolving under two different scope ids
constructs two distinct instances (once per scope); resolving again under
either scope returns that scope's cached instance unchanged; and destroying
one scope leaves the other scope's cached instance intact. -/
theorem scoped_resolve_isolation
    (fuel fuel2 : Nat) (dc dc1 dc2 : DC) (t : Ty) (reg : Registration) (r1 r2 : Val)
    (s1 s2 : String)
    (hif : t.isIface = false)
    (hreg : alookup dc.constructors t = some reg)
    (hsc : reg.scope = .Scoped)
    (hb : reg.behavior.plan = [])
    (hcid : CidUnique dc.constructors reg.cid t)
    (hs1 : s1 ≠ "") (hs2 : s2 ≠ "") (hss : s1 ≠ s2)
    (hm1 : scopedLookup dc s1 t = none)
    (hm2 : scopedLookup dc s2 t = none)
    (h1 : resolveWithScope fuel dc t s1 [] = (dc1, .ok r1))
    (h2 : resolveWithScope fuel2 dc1 t s2 [] = (dc2, .ok r2)) :
    r1 ≠ r2 ∧
    dc2.log.count reg.cid = dc.log.count reg.cid + 2 ∧
    (∀ f, resolveWithScope (f + 1) dc2 t s1 [] = (dc2, .ok r1)) ∧
    (∀ f, resolveWithScope (f + 1) dc2 t s2 [] = (dc2, .ok r2)) ∧
    (∀ f, resolveWithScope (f + 1) (destroyScope dc2 s1) t s2 [] =
      (destroyScope dc2 s1, .ok r2)) := by
  have runS : ∀ (f : Nat) (d d' : DC) (w : Val) (s : String),
      alookup d.constructors t = some reg →
      CidUnique d.constructors reg.cid t →
      s ≠ "" →
      resolveWithScope f d t s [] = (d', .ok w) →
      scopedLookup d s t = none →
      scopedLookup d' s t = some w ∧
      (∀ s', s' ≠ s → alookup d'.scopedInstances s' = alookup d.scopedInstances s') ∧
      d'.log.count reg.cid = d.log.count reg.cid + 1 ∧
      d'.constructors = d.constructors ∧
      (∃ st, w = .obj t st reg.cid ∧ d.fresh ≤ st ∧ st < d'.fresh) := by
    intro f d d' w s hregd hcidd hsne hrund hmissd
    cases f with
    | zero => exact absurd hrund (by simp [resolveWithScope])
    | succ g =>
    have hframe_run := resolveWithScope_frame (g + 1) d t s []
    rw [hrund] at hframe_run
    rw [resolveWithScope_scoped_eq g d t reg s [] hif (by simp) hregd hsc,
      List.nil_append] at hrund
    obtain ⟨dcI, hinv, hst⟩ := resolveScoped_build_ok _ _ _ _ _ _ _ _ hsne hmissd hrund
    obtain ⟨dcp, args, hp, hcc⟩ := invokeCtor_ok_parts _ _ _ _ _ _ _ _ hinv
    rw [ctorCall_plan_nil dcp t reg hb] at hcc
    obtain ⟨hI, hw⟩ := Prod.mk.injEq .. ▸ hcc
    have hw' : w = .obj t dcp.fresh reg.cid := (Except.ok.injEq .. ▸ hw).symm
    have hcid0 : CidUnique (ensureScope d s).constructors reg.cid t := by
      rw [ensureScope_constructors]; exact hcidd
    have hpre := resolveParams_preserve (resolveWithScope g) s t reg.cid
        (fun a b c => (resolveWithScope_frame g a b s c).1)
        (fun a b c hcu hmem => resolveWithScope_preserve t reg.cid g a b s c hcu hmem)
        reg.paramTypes (ensureScope d s) 1 [t] hcid0 (by simp)
    rw [hp] at hpre
    obtain ⟨_, _, hcount_p, _⟩ := hpre
    have hframe_p := resolveParams_frame (resolveWithScope g) s
        (fun a b c => resolveWithScope_frame g a b s c)
        reg.paramTypes (ensureScope d s) 1 [t]
    rw [hp] at hframe_p
    refine ⟨?_, ?_, ?_, ?_, ?_⟩
    · rw [hst]
      exact scopedStore_lookup_self dcI s t w
    · intro s' hs'
      exact hframe_run.2.2.2.2.2.2.1 s' hs'
    · rw [hst]
      show dcI.log.count reg.cid = d.log.count reg.cid + 1
      rw [← hI]
      show (dcp.log ++ [reg.cid]).count reg.cid = d.log.count reg.cid + 1
      rw [List.count_append, hcount_p, ensureScope_log]
      simp [List.count_cons]
    · exact hframe_run.1
    · refine ⟨dcp.fresh, hw', ?_, ?_⟩
      · have hle1 : d.fresh ≤ (ensureScope d s).fresh := by rw [ensureScope_fresh]
        exact Nat.le_trans hle1 hframe_p.2.2.2.2.2.2.2
      · rw [hst]
        show dcp.fresh < dcI.fresh
        rw [← hI]
        exact Nat.lt_succ_self _
  obtain ⟨hstore1, hpart1, hcount1, hctors1, st1, hr1, hge1, hlt1⟩ :=
    runS fuel dc dc1 r1 s1 hreg hcid hs1 h1 hm1
  have hreg1 : alookup dc1.constructors t = some reg := by rw [hctors1]; exact hreg
  have hcid1 : CidUnique dc1.constructors reg.cid t := by rw [hctors1]; exact hcid
  have hm2' : scopedLookup dc1 s2 t = none := by
    unfold scopedLookup
    rw [hpart1 s2 (fun h => hss h.symm)]
    exact hm2
  obtain ⟨hstore2, hpart2, hcount2, hctors2, st2, hr2, hge2, hlt2⟩ :=
    runS fuel2 dc1 dc2 r2 s2 hreg1 hcid1 hs2 h2 hm2'
  have hreg2 : alookup dc2.constructors t = some reg := by rw [hctors2]; exact hreg1
  have hdistinct : r1 ≠ r2 := by
    rw [hr1, hr2]
    intro h
    have hst : st1 = st2 := by
      have := Val.obj.injEq .. ▸ h
      exact this.2.1
    have h12 : st1 < st2 := Nat.lt_of_lt_of_le hlt1 hge2
    rw [hst] at h12
    exact Nat.lt_irrefl _ h12
  have hstore1' : scopedLookup dc2 s1 t = some r1 := by
    unfold scopedLookup
    rw [hpart2 s1 hss]
    exact hstore1
  refine ⟨hdistinct, ?_, ?_, ?_, ?_⟩
  · rw [hcount2, hcount1]
  · intro f
    exact scoped_cache_hit f dc2 t reg r1 s1 hif hreg2 hsc hs1 hstore1'
  · intro f
    exact scoped_cache_hit f dc2 t reg r2 s2 hif hreg2 hsc hs2 hstore2
  · intro f
    have hregd : alookup (destroyScope dc2 s1).constructors t = some reg := hreg2
    have hstored : scopedLookup (destroyScope dc2 s1) s2 t = some r2 := by
      rw [destroyScope_scopedLookup_ne dc2 s1 s2 t (fun h => hss h.symm)]
      exact hstore2
    exact scoped_cache_hit f (destroyScope dc2 s1) t reg r2 s2 hif hregd hsc hs2 hstored

theorem singleton_resolve_marker_clear
    (fuel : Nat) (dc dc1 : DC) (t : Ty) (reg : Registration) (r : Except Err Val)
    (hif : t.isIface = false)
    (hreg : alookup dc.constructors t = some reg)
    (hsc : reg.scope = .Singleton)
    (hcid : CidUnique dc.constructors reg.cid t)
    (hip : t ∉ dc.inProgress)
    (hrun : resolveWithScope fuel dc t "" [] = (dc1, r)) :
    t ∉ dc1.inProgress := by
  cases fuel with
  | zero =>
    simp only [resolveWithScope] at hrun
    obtain ⟨hd, _⟩ := Prod.mk.injEq .. ▸ hrun
    rw [← hd]
    exact hip
  | succ f =>
  rw [resolveWithScope_singleton_eq f dc t reg "" [] hif (by simp) hreg hsc,
    List.nil_append] at hrun
  cases hdep : alookup dc.dependencies t with
  | some w =>
    simp only [resolveSingleton, hdep] at hrun
    obtain ⟨hd, _⟩ := Prod.mk.injEq .. ▸ hrun
    rw [← hd]
    exact hip
  | none =>
  simp only [resolveSingleton, hdep, if_neg hip] at hrun
  have hpre := resolveParams_preserve (resolveWithScope f) "" t reg.cid
      (fun a b c => (resolveWithScope_frame f a b "" c).1)
      (fun a b c hcu hmem => resolveWithScope_preserve t reg.cid f a b "" c hcu hmem)
      reg.paramTypes { dc with inProgress := t :: dc.inProgress } 1 [t] hcid (by simp)
  cases hii : invokeCtor (resolveWithScope f) { dc with inProgress := t :: dc.inProgress }
      t reg "" [t] with
  | mk dcI rr =>
  rw [hii] at hrun
  have hcnt : dcI.inProgress.count t = 1 := by
    have hc0 : dc.inProgress.count t = 0 := List.count_eq_zero.mpr hip
    have hipI : dcI.inProgress = dcI.inProgress := rfl
    have : dcI.inProgress.count t
        = ({ dc with inProgress := t :: dc.inProgress } : DC).inProgress.count t := by
      simp only [invokeCtor] at hii
      split at hii
      · next dcp e heq =>
        obtain ⟨hd, _⟩ := Prod.mk.injEq .. ▸ hii
        rw [heq] at hpre
        rw [← hd]
        exact hpre.2.2.2
      · next dcp args heq =>
        rw [heq] at hpre
        have hpp := hpre.2.2.2
        cases rr with
        | error e =>
          obtain ⟨_, _, hipc, _, _, _, _, _, _⟩ := ctorCall_err_fields dcp t reg dcI e hii
          rw [hipc]
          exact hpp
        | ok v =>
          obtain ⟨_, _, hipc, _, _, _⟩ := ctorCall_ok_fields dcp t reg dcI v hii
          rw [hipc]
          exact hpp
    rw [this]
    simp [List.count_cons, hc0]
  cases rr with
  | error e =>
    obtain ⟨hd, _⟩ := Prod.mk.injEq .. ▸ hrun
    rw [← hd]
    show t ∉ dcI.inProgress.erase t
    intro hmem
    have hpos := List.count_pos_iff.mpr hmem
    rw [List.count_erase_self, hcnt] at hpos
    simp at hpos
  | ok v =>
    obtain ⟨hd, _⟩ := Prod.mk.injEq .. ▸ hrun
    rw [← hd]
    show t ∉ dcI.inProgress.erase t
    intro hmem
    have hpos := List.count_pos_iff.mpr hmem
    rw [List.count_erase_self, hcnt] at hpos
    simp at hpos

theorem override_constructors_eq (dc : DC) (t : Ty) (cid : Nat) (b : CtorBehavior)
    (sc : Scope) (ps : List Ty) :
    (overrideConstructor dc t cid b sc ps).constructors
      = aupsert dc.constructors t ⟨cid, b, sc, ps⟩ := rfl

theorem override_deps_none (dc : DC) (t : Ty) (cid : Nat) (b : CtorBehavior)
    (sc : Scope) (ps : List Ty) :
    alookup (overrideConstructor dc t cid b sc ps).dependencies t = none :=
  alookup_aremove_self _ _

theorem override_scopedLookup_none (dc : DC) (t : Ty) (cid : Nat) (b : CtorBehavior)
    (sc : Scope) (ps : List Ty) (s : String) :
    scopedLookup (overrideConstructor dc t cid b sc ps) s t = none := by
  show scopedLookup _ s t = none
  unfold scopedLookup
  have hmap : alookup (overrideConstructor dc t cid b sc ps).scopedInstances s
      = (alookup dc.scopedInstances s).map (fun m => aremove m t) := by
    exact alookup_map_aremove dc.scopedInstances s t
  rw [hmap]
  cases h : alookup dc.scopedInstances s with
  | none => rfl
  | some part => exact alookup_aremove_self part t

/-- C6: overriding the registration of an unnamed produced type replaces the
Registration, evicts the type from the singleton tier and from every live
scope partition, and a Singleton type already resolved once (instance X)
yields after override a new instance Y, distinct from X and produced by the
new constructor. -/
theorem override_replaces_and_evicts
    (fuel fuel2 : Nat) (dc dc1 dc3 : DC) (t : Ty) (reg : Registration) (x y : Val)
    (ncid : Nat) (nparams : List Ty)
    (hif : t.isIface = false)
    (hreg : alookup dc.constructors t = some reg)
    (hsc : reg.scope = .Singleton)
    (hcid : CidUnique dc.constructors reg.cid t)
    (hip : t ∉ dc.inProgress)
    (hstamps : StampsBelow dc)
    (h1 : resolveWithScope fuel dc t "" [] = (dc1, .ok x))
    (h2 : resolveWithScope fuel2 (overrideConstructor dc1 t ncid ⟨[]⟩ .Singleton nparams) t "" []
      = (dc3, .ok y)) :
    alookup (overrideConstructor dc1 t ncid ⟨[]⟩ .Singleton nparams).constructors t
      = some ⟨ncid, ⟨[]⟩, .Singleton, nparams⟩ ∧
    alookup (overrideConstructor dc1 t ncid ⟨[]⟩ .Singleton nparams).dependencies t = none ∧
    (∀ s, scopedLookup (overrideConstructor dc1 t ncid ⟨[]⟩ .Singleton nparams) s t = none) ∧
    (∃ st, y = .obj t st ncid) ∧
    y ≠ x := by
  have hregN : alookup (overrideConstructor dc1 t ncid ⟨[]⟩ .Singleton nparams).constructors t
      = some ⟨ncid, ⟨[]⟩, .Singleton, nparams⟩ := by
    rw [override_constructors_eq]
    exact alookup_aupsert_self _ _ _
  have hdepN := override_deps_none dc1 t ncid ⟨[]⟩ .Singleton nparams
  have hscN := override_scopedLookup_none dc1 t ncid ⟨[]⟩ .Singleton nparams
  have hip1 : t ∉ dc1.inProgress :=
    singleton_resolve_marker_clear fuel dc dc1 t reg (.ok x) hif hreg hsc hcid hip h1
  have hip2 : t ∉ (overrideConstructor dc1 t ncid ⟨[]⟩ .Singleton nparams).inProgress := hip1
  have hst := resolveWithScope_stamps fuel dc t "" [] hstamps
  rw [h1] at hst
  have hxv : ValBelow x dc1.fresh := hst.2 x rfl
  cases fuel2 with
  | zero => exact absurd h2 (by simp [resolveWithScope])
  | succ g =>
  rw [resolveWithScope_singleton_eq g _ t ⟨ncid, ⟨[]⟩, .Singleton, nparams⟩ "" []
    hif (by simp) hregN rfl, List.nil_append] at h2
  obtain ⟨dcI, hinv, hdc3⟩ := resolveSingleton_build_ok _ _ _ _ _ _ _ _ hdepN hip2 h2
  obtain ⟨dcp, args, hp, hcc⟩ := invokeCtor_ok_parts _ _ _ _ _ _ _ _ hinv
  rw [ctorCall_plan_nil dcp t ⟨ncid, ⟨[]⟩, .Singleton, nparams⟩ rfl] at hcc
  obtain ⟨hI, hw⟩ := Prod.mk.injEq .. ▸ hcc
  have hy : y = .obj t dcp.fresh ncid := (Except.ok.injEq .. ▸ hw).symm
  have hframe_p := resolveParams_frame (resolveWithScope g) ""
      (fun a b c => resolveWithScope_frame g a b "" c)
      (⟨ncid, ⟨[]⟩, .Singleton, nparams⟩ : Registration).paramTypes
      { (overrideConstructor dc1 t ncid ⟨[]⟩ .Singleton nparams) with
        inProgress := t :: (overrideConstructor dc1 t ncid ⟨[]⟩ .Singleton nparams).inProgress }
      1 [t]
  rw [hp] at hframe_p
  have hge : dc1.fresh ≤ dcp.fresh := hframe_p.2.2.2.2.2.2.2
  refine ⟨hregN, hdepN, hscN, ⟨dcp.fresh, hy⟩, ?_⟩
  intro heq
  have hx : x = .obj t dcp.fresh ncid := heq ▸ hy
  have hlt : dcp.fresh < dc1.fresh := hxv t dcp.fresh ncid hx
  exact Nat.lt_irrefl _ (Nat.lt_of_lt_of_le hlt hge)

theorem cidUnique_single (t : Ty) (r : Registration) : CidUnique [(t, r)] r.cid t := by
  intro u rr h _
  by_cases hu : t = u
  · exact hu.symm
  · simp [alookup, hu] at h

theorem stampsBelow_of_empty (dc : DC) (h1 : dc.dependencies = [])
    (h2 : dc.scopedInstances = []) : StampsBelow dc := by
  constructor
  · intro t v hv
    rw [h1] at hv
    simp [alookup] at hv
  · intro s t v hv
    unfold scopedLookup at hv
    rw [h2] at hv
    simp [alookup] at hv

theorem transient_resolve_no_cache_witness :
    alookup dcW3a.dependencies tyWB = alookup dcW3.dependencies tyWB ∧
    alookup dcW3b.dependencies tyWB = alookup dcW3.dependencies tyWB ∧
    scopedLookup dcW3a "x" tyWB = scopedLookup dcW3 "x" tyWB ∧
    scopedLookup dcW3b "x" tyWB = scopedLookup dcW3 "x" tyWB ∧
    dcW3a.log.count regW3.cid = dcW3.log.count regW3.cid + 1 ∧
    dcW3b.log.count regW3.cid = dcW3.log.count regW3.cid + 2 := by
  have h := transient_resolve_no_cache 3 3 dcW3 dcW3a dcW3b tyWB regW3
    (.obj tyWB 0 2) (.obj tyWB 1 2) "" rfl rfl rfl (cidUnique_single tyWB regW3) rfl rfl
  exact ⟨h.1, h.2.1, h.2.2.1 "x", h.2.2.2.1 "x", h.2.2.2.2.2.2.2.2.1, h.2.2.2.2.2.2.2.2.2⟩

theorem scoped_resolve_isolation_witness :
    (Val.obj tyWD 0 4) ≠ (Val.obj tyWD 1 4) ∧
    dcW4b.log.count regW4.cid = dcW4.log.count regW4.cid + 2 ∧
    resolveWithScope 3 dcW4b tyWD "s1" [] = (dcW4b, .ok (.obj tyWD 0 4)) ∧
    resolveWithScope 3 dcW4b tyWD "s2" [] = (dcW4b, .ok (.obj tyWD 1 4)) ∧
    resolveWithScope 3 (destroyScope dcW4b "s1") tyWD "s2" [] =
      (destroyScope dcW4b "s1", .ok (.obj tyWD 1 4)) := by
  have h := scoped_resolve_isolation 3 3 dcW4 dcW4a dcW4b tyWD regW4
    (.obj tyWD 0 4) (.obj tyWD 1 4) "s1" "s2" rfl rfl rfl rfl
    (cidUnique_single tyWD regW4) (by decide) (by decide) (by decide) rfl rfl rfl rfl
  exact ⟨h.1, h.2.1, h.2.2.1 2, h.2.2.2.1 2, h.2.2.2.2 2⟩

theorem ctor_error_no_cache_no_marker_witness :
    regW5.behavior.resultAt (dcW5.log.count regW5.cid) = .failure 42 ∧
    alookup dcW5.dependencies tyWC = none ∧
    alookup dcW5a.dependencies tyWC = none ∧
    scopedLookup dcW5a "x" tyWC = scopedLookup dcW5 "x" tyWC ∧
    tyWC ∉ dcW5a.inProgress ∧
    dcW5a.log.count regW5.cid = dcW5.log.count regW5.cid + 1 ∧
    resolveWithScope 3 dcW5a tyWC "" [] =
      resolveSingleton (resolveWithScope 2) dcW5a tyWC regW5 "" [tyWC] := by
  have h := ctor_error_no_cache_no_marker 3 dcW5 dcW5a tyWC regW5 42
    rfl rfl rfl (cidUnique_single tyWC regW5) rfl
  exact ⟨h.1, h.2.1, h.2.2.1, h.2.2.2.1 "x", h.2.2.2.2.2.2.2.1,
    h.2.2.2.2.2.2.2.2.1, h.2.2.2.2.2.2.2.2.2 2⟩

theorem override_replaces_and_evicts_witness :
    alookup (overrideConstructor dcW6a tyWE 6 ⟨[]⟩ .Singleton []).constructors tyWE
      = some ⟨6, ⟨[]⟩, .Singleton, []⟩ ∧
    alookup (overrideConstructor dcW6a tyWE 6 ⟨[]⟩ .Singleton []).dependencies tyWE = none ∧
    scopedLookup (overrideConstructor dcW6a tyWE 6 ⟨[]⟩ .Singleton []) "q" tyWE = none ∧
    (∃ st, (Val.obj tyWE 1 6) = .obj tyWE st 6) ∧
    (Val.obj tyWE 1 6) ≠ (Val.obj tyWE 0 5) := by
  have h := override_replaces_and_evicts 3 3 dcW6 dcW6a dcW6c tyWE regW6
    (.obj tyWE 0 5) (.obj tyWE 1 6) 6 []
    rfl rfl rfl (cidUnique_single tyWE regW6) (by decide)
    (stampsBelow_of_empty dcW6 rfl rfl) rfl rfl
  exact ⟨h.1, h.2.1, h.2.2.1 "q", h.2.2.2.1, h.2.2.2.2⟩

/-- C8 counterexample: a named resolve of ("x", F) with no registration
under that (name, type) key does not fail with NoConstructorRegistered: it
falls back to the unnamed registration for F and succeeds. -/
theorem named_resolve_missing_succeeds_counterexample :
    (match alookup dcW8.namedConstructors "x" with
     | none => none
     | some m => alookup m tyWF) = none ∧
    (resolveNamedWithScope 10 dcW8 "x" tyWF "" []).2 = .ok (.obj tyWF 0 7) := by
  exact ⟨rfl, rfl⟩

/-- C8 (amended): a named resolve of (name, type) with no registration under
that key falls back to unnamed resolution of the type (same scope id), and
therefore fails with NoConstructorRegistered exactly when no unnamed
registration exists either (for non-interface types). -/
theorem named_resolve_missing_falls_back
    (fuel : Nat) (dc : DC) (name : String) (t : Ty) (scopeID : String)
    (hif : t.isIface = false)
    (hnamed : (match alookup dc.namedConstructors name with
               | none => none
               | some m => alookup m t) = none)
    (hnone : alookup dc.constructors t = none) :
    resolveNamedWithScope (fuel + 1) dc name t scopeID [] =
      resolveWithScope fuel dc t scopeID [] ∧
    resolveNamedWithScope (fuel + 2) dc name t scopeID [] = (dc, .error (.noCtor t)) := by
  constructor
  · simp [resolveNamedWithScope, hif, hnamed]
  · simp [resolveNamedWithScope, resolveWithScope, hif, hnamed, hnone]

theorem named_resolve_missing_falls_back_witness :
    resolveNamedWithScope 3 dcW9 "x" tyWF "" [] = resolveWithScope 2 dcW9 tyWF "" [] ∧
    resolveNamedWithScope 4 dcW9 "x" tyWF "" [] = (dcW9, .error (.noCtor tyWF)) := by
  exact named_resolve_missing_falls_back 2 dcW9 "x" tyWF "" rfl rfl rfl

/-- C9 counterexample: the lazy provider's Get, applied to an interface
type whose registered constructor returned a nil value, returns the zero
value with a nil error even though the type assertion fails - a silent
success instead of a TypeMismatch error. -/
theorem provider_get_silent_mismatch_counterexample :
    providerGet 10 dcW9 tyWI "" "" = (dcW9a, Val.nil, none) ∧
    assertType Val.nil tyWI = false := by
  exact ⟨rfl, rfl⟩

/-- C9 (amended): the typed resolve entry point never silently returns a
value failing the type assertion (it reports an error), but the lazy
provider's Get returns the zero value with a nil error when the assertion
fails. -/
theorem typed_resolve_reports_mismatch
    (fuel : Nat) (dc : DC) (t : Ty) (sc name : String) :
    (∀ dc1 v, diResolve fuel dc t = (dc1, v, none) → assertType v t = true) ∧
    (∀ dc1 inst,
      (if name ≠ "" then resolveNamedWithScope fuel dc name t sc []
       else resolveWithScope fuel dc t sc []) = (dc1, .ok inst) →
      assertType inst t = false →
      providerGet fuel dc t sc name = (dc1, .nil, none)) := by
  constructor
  · intro dc1 v h
    simp only [diResolve, containerResolve] at h
    split at h
    · next dc2 e heq => simp at h
    · next dc2 inst heq =>
      by_cases hnil : inst = .nil
      · simp [hnil] at h
      · simp only [if_neg hnil] at h
        by_cases hassert : assertType inst t
        · simp only [if_pos hassert, Prod.mk.injEq] at h
          obtain ⟨_, hv, _⟩ := h
          rw [← hv]
          exact hassert
        · simp [hassert] at h
  · intro dc1 inst hres hassert
    simp only [providerGet]
    rw [hres]
    simp [hassert]

theorem typed_resolve_reports_mismatch_witness :
    (∀ dc1 v, diResolve 10 dcW9 tyWI = (dc1, v, none) → assertType v tyWI = true) ∧
    (∀ dc1 inst,
      (if "" ≠ "" then resolveNamedWithScope 10 dcW9 "" tyWI "" []
       else resolveWithScope 10 dcW9 tyWI "" []) = (dc1, .ok inst) →
      assertType inst tyWI = false →
      providerGet 10 dcW9 tyWI "" "" = (dc1, .nil, none)) :=
  typed_resolve_reports_mismatch 10 dcW9 tyWI "" ""

/-- C10: a named Singleton's constructor is invoked with an empty scope id
regardless of the scope id the caller supplied, so a named Singleton with a
Scoped-registered parameter fails with a scope-required error even under a
valid scope id; the unnamed Singleton forwards the caller's scope id and
the same shape resolves successfully. -/
theorem named_singleton_drops_scope_id
    (g : Nat) (nm sid : String) (t p : Ty) (cidN cidU cidP : Nat)
    (hsid : sid ≠ "")
    (hift : t.isIface = false) (hifp : p.isIface = false) (hne : p ≠ t) :
    resolveNamedWithScope (g + 2) (dcC10A nm t p cidN cidP) nm t sid [] =
      (ensureNamedDep (dcC10A nm t p cidN cidP) nm,
        .error (.paramResolveNamed p nm (.scopeRequired p))) ∧
    resolveWithScope (g + 2) (dcC10B t p cidU cidP) t sid [] =
      (dcC10Bafter sid t p cidU cidP, .ok (.obj t 1 cidU)) := by
  constructor
  · simp [resolveNamedWithScope, resolveNamedSingleton, invokeCtorNamed, resolveParamsNamed,
      resolveWithScope, resolveScoped, namedDepLookup, ensureNamedDep,
      getNamedInterfaceBinding, alookup, dcC10A, newDC, hift, hifp, hne, hsid]
  · simp [resolveWithScope, resolveSingleton, resolveScoped, invokeCtor, resolveParams,
      ctorCall, CtorBehavior.resultAt, ensureScope, scopedStore, scopedLookup, alookup,
      aupsert, getInterfaceBinding, dcC10B, dcC10Bafter, newDC, hift, hifp, hne, hsid]

theorem named_singleton_drops_scope_id_witness :
    resolveNamedWithScope 5 (dcC10A "n" tyWG tyWP 11 12) "n" tyWG "s" [] =
      (ensureNamedDep (dcC10A "n" tyWG tyWP 11 12) "n",
        .error (.paramResolveNamed tyWP "n" (.scopeRequired tyWP))) ∧
    resolveWithScope 5 (dcC10B tyWG tyWP 13 12) tyWG "s" [] =
      (dcC10Bafter "s" tyWG tyWP 13 12, .ok (.obj tyWG 1 13)) :=
  named_singleton_drops_scope_id 3 "n" "s" tyWG tyWP 11 13 12 (by decide) rfl rfl (by decide)


theorem vwalk_enter (key : NodeKey) (visited inProgress visits : List NodeKey)
    (hinv : VWalkInv visited inProgress visits)
    (h1 : key ∉ inProgress) (h2 : key ∉ visited) :
    VWalkInv visited (key :: inProgress) (visits ++ [key]) := by
  obtain ⟨hnd, hcov⟩ := hinv
  have hknot : key ∉ visits := by
    intro hk
    rcases hcov key hk with h | h
    · exact h2 h
    · exact h1 h
  constructor
  · exact (List.perm_append_singleton key visits).nodup_iff.mpr
      (List.nodup_cons.mpr ⟨hknot, hnd⟩)
  · intro k hk
    rcases List.mem_append.mp hk with h | h
    · rcases hcov k h with hv | hi
      · exact Or.inl hv
      · exact Or.inr (List.mem_cons_of_mem _ hi)
    · have hkk : k = key := List.mem_singleton.mp h
      exact Or.inr (hkk ▸ List.mem_cons_self _ _)

theorem vwalk_finish (key : NodeKey) (visited inProgress : List NodeKey)
    (vA ipA vsA : List NodeKey)
    (hip : ipA = key :: inProgress)
    (hmono : ∀ k ∈ visited, k ∈ vA)
    (hinv : VWalkInv vA ipA vsA) :
    ipA.erase key = inProgress ∧
    (∀ k ∈ visited, k ∈ key :: vA) ∧
    VWalkInv (key :: vA) (ipA.erase key) vsA := by
  subst hip
  rw [List.erase_cons_head]
  refine ⟨rfl, fun k hk => List.mem_cons_of_mem _ (hmono k hk), hinv.1, ?_⟩
  intro k hk
  rcases hinv.2 k hk with hv | hip2
  · exact Or.inl (List.mem_cons_of_mem _ hv)
  · rcases List.mem_cons.mp hip2 with hkey | hrest
    · exact Or.inl (hkey ▸ List.mem_cons_self _ _)
    · exact Or.inr hrest

theorem validateChildren_inv (vn : ValidateFn)
    (hvn : ∀ key visited inProgress stack visits, VWalkInv visited inProgress visits →
      (vn key visited inProgress stack visits).1.2.1 = inProgress ∧
      (∀ k ∈ visited, k ∈ (vn key visited inProgress stack visits).1.1) ∧
      VWalkInv (vn key visited inProgress stack visits).1.1
        (vn key visited inProgress stack visits).1.2.1
        (vn key visited inProgress stack visits).1.2.2) :
    ∀ (ps : List Ty) (visited inProgress stack visits : List NodeKey),
      VWalkInv visited inProgress visits →
      (validateChildren vn ps visited inProgress stack visits).1.2.1 = inProgress ∧
      (∀ k ∈ visited, k ∈ (validateChildren vn ps visited inProgress stack visits).1.1) ∧
      VWalkInv (validateChildren vn ps visited inProgress stack visits).1.1
        (validateChildren vn ps visited inProgress stack visits).1.2.1
        (validateChildren vn ps visited inProgress stack visits).1.2.2 := by
  intro ps
  induction ps with
  | nil =>
    intro visited inProgress stack visits hinv
    exact ⟨rfl, fun k hk => hk, hinv⟩
  | cons p rest ih =>
    intro visited inProgress stack visits hinv
    simp only [validateChildren]
    obtain ⟨hip1, hmono1, hinv1⟩ := hvn ⟨p, ""⟩ visited inProgress stack visits hinv
    cases hr : vn ⟨p, ""⟩ visited inProgress stack visits with
    | mk st res =>
      rw [hr] at hip1 hmono1 hinv1
      obtain ⟨v1, ip1, vs1⟩ := st
      cases res with
      | some e => exact ⟨hip1, hmono1, hinv1⟩
      | none =>
        have hipEq : ip1 = inProgress := hip1
        have hinv1' : VWalkInv v1 ip1 vs1 := hinv1
        obtain ⟨hip2, hmono2, hinv2⟩ := ih v1 ip1 stack vs1 hinv1'
        exact ⟨hip2.trans hipEq, fun k hk => hmono2 k (hmono1 k hk), hinv2⟩

theorem validateNode_inv (dc : DC) :
    ∀ (fuel : Nat) (key : NodeKey) (visited inProgress stack visits : List NodeKey),
      VWalkInv visited inProgress visits →
      (validateNode dc fuel key visited inProgress stack visits).1.2.1 = inProgress ∧
      (∀ k ∈ visited, k ∈ (validateNode dc fuel key visited inProgress stack visits).1.1) ∧
      VWalkInv (validateNode dc fuel key visited inProgress stack visits).1.1
        (validateNode dc fuel key visited inProgress stack visits).1.2.1
        (validateNode dc fuel key visited inProgress stack visits).1.2.2 := by
  intro fuel
  induction fuel with
  | zero =>
    intro key visited inProgress stack visits hinv
    exact ⟨rfl, fun k hk => hk, hinv⟩
  | succ f ih =>
    intro key visited inProgress stack visits hinv
    by_cases h1 : key ∈ inProgress
    · simp only [validateNode, if_pos h1]
      refine ⟨?_, fun k hk => hk, hinv⟩
      trivial
    by_cases h2 : key ∈ visited
    · simp only [validateNode, if_neg h1, if_pos h2]
      refine ⟨?_, fun k hk => hk, hinv⟩
      trivial
    simp only [validateNode, if_neg h1, if_neg h2]
    have hinv1 := vwalk_enter key visited inProgress visits hinv h1 h2
    by_cases hname : key.name ≠ ""
    · simp only [if_pos hname]
      cases hbind : (if key.t.isIface then getNamedInterfaceBinding dc key.name key.t else none) with
      | some c =>
        obtain ⟨hipA, hmonoA, hinvA⟩ :=
          ih ⟨c, ""⟩ visited (key :: inProgress) (stack ++ [key]) (visits ++ [key]) hinv1
        simp only [vFinish]
        exact vwalk_finish key visited inProgress _ _ _ hipA hmonoA hinvA
      | none =>
        cases hreg : (match alookup dc.namedConstructors key.name with
                      | none => none
                      | some m => alookup m key.t) with
        | none =>
          simp only [vFinish]
          exact vwalk_finish key visited inProgress _ _ _ rfl (fun k hk => hk) hinv1
        | some reg =>
          obtain ⟨hipA, hmonoA, hinvA⟩ :=
            validateChildren_inv (validateNode dc f)
              (fun k v ip st vs hi => ih k v ip st vs hi)
              reg.paramTypes visited (key :: inProgress) (stack ++ [key]) (visits ++ [key]) hinv1
          simp only [vFinish]
          exact vwalk_finish key visited inProgress _ _ _ hipA hmonoA hinvA
    · simp only [if_neg hname]
      by_cases hiface : key.t.isIface
      · simp only [if_pos hiface]
        cases hbind : getInterfaceBinding dc key.t with
        | some c =>
          obtain ⟨hipA, hmonoA, hinvA⟩ :=
            ih ⟨c, ""⟩ visited (key :: inProgress) (stack ++ [key]) (visits ++ [key]) hinv1
          simp only [vFinish]
          exact vwalk_finish key visited inProgress _ _ _ hipA hmonoA hinvA
        | none =>
          simp only [vFinish]
          exact vwalk_finish key visited inProgress _ _ _ rfl (fun k hk => hk) hinv1
      · simp only [if_neg hiface]
        cases hreg : alookup dc.constructors key.t with
        | none =>
          simp only [vFinish]
          exact vwalk_finish key visited inProgress _ _ _ rfl (fun k hk => hk) hinv1
        | some reg =>
          obtain ⟨hipA, hmonoA, hinvA⟩ :=
            validateChildren_inv (validateNode dc f)
              (fun k v ip st vs hi => ih k v ip st vs hi)
              reg.paramTypes visited (key :: inProgress) (stack ++ [key]) (visits ++ [key]) hinv1
          simp only [vFinish]
          exact vwalk_finish key visited inProgress _ _ _ hipA hmonoA hinvA

theorem validateRoots_inv (vn : ValidateFn)
    (hvn : ∀ key visited inProgress stack visits, VWalkInv visited inProgress visits →
      (vn key visited inProgress stack visits).1.2.1 = inProgress ∧
      (∀ k ∈ visited, k ∈ (vn key visited inProgress stack visits).1.1) ∧
      VWalkInv (vn key visited inProgress stack visits).1.1
        (vn key visited inProgress stack visits).1.2.1
        (vn key visited inProgress stack visits).1.2.2) :
    ∀ (roots : List NodeKey) (visited visits : List NodeKey),
      visits.Nodup → (∀ k ∈ visits, k ∈ visited) →
      ((validateRoots vn roots visited visits).1.2).Nodup := by
  intro roots
  induction roots with
  | nil =>
    intro visited visits hnd _
    exact hnd
  | cons r rest ih =>
    intro visited visits hnd hcov
    simp only [validateRoots]
    have hinv : VWalkInv visited [] visits := ⟨hnd, fun k hk => Or.inl (hcov k hk)⟩
    obtain ⟨hip, hmono, hinvA⟩ := hvn r visited [] [] visits hinv
    cases hr : vn r visited [] [] visits with
    | mk st res =>
      rw [hr] at hip hmono hinvA
      obtain ⟨v1, ip1, vs1⟩ := st
      cases res with
      | some e => exact hinvA.1
      | none =>
        have hipEq : ip1 = [] := hip
        refine ih v1 vs1 hinvA.1 (fun k hk => ?_)
        rcases hinvA.2 k hk with h | h
        · exact h
        · rw [hipEq] at h
          exact absurd h (List.not_mem_nil k)

/-- C7: Validate walks the whole graph without mutating the container (the
returned container is the input container, so no cache tier is written and
the ghost constructor-invocation log is unchanged: no constructor runs),
and the walk visits each (name, type) node at most once per call: the ghost
trace of nodes passing both entry guards has no duplicates. -/
theorem validate_no_mutation_visits_once (fuel : Nat) (dc : DC) :
    (containerValidate fuel dc).1 = dc ∧ (containerValidate fuel dc).2.1.Nodup := by
  constructor
  · simp only [containerValidate]
  · simp only [containerValidate]
    exact validateRoots_inv (validateNode dc fuel)
      (fun k v ip st vs hi => validateNode_inv dc fuel k v ip st vs hi)
      _ [] [] List.nodup_nil (fun k hk => absurd hk (List.not_mem_nil k))

theorem alookup_mem {α β : Type} [DecidableEq α] :
    ∀ (l : List (α × β)) (a : α) (b : β), alookup l a = some b → (a, b) ∈ l := by
  intro l
  induction l with
  | nil =>
    intro a b h
    simp [alookup] at h
  | cons p rest ih =>
    intro a b h
    obtain ⟨k, v⟩ := p
    simp only [alookup] at h
    by_cases hk : k = a
    · rw [if_pos hk] at h
      have hv : v = b := Option.some.injEq .. ▸ h
      subst hk
      subst hv
      exact List.mem_cons_self _ _
    · rw [if_neg hk] at h
      exact List.mem_cons_of_mem _ (ih a b h)

theorem tyKey_inj (u t : Ty) (h : tyKey u = tyKey t) : u = t :=
  congrArg NodeKey.t h

theorem tyKey_mem_map (t : Ty) (l : List Ty) : tyKey t ∈ l.map tyKey ↔ t ∈ l := by
  constructor
  · intro h
    obtain ⟨u, hu, he⟩ := List.mem_map.mp h
    exact (tyKey_inj u t he) ▸ hu
  · intro h
    exact List.mem_map.mpr ⟨t, h, rfl⟩

theorem chainPre_foldl (stack : List Ty) : ∀ acc : String,
    List.foldl (fun acc node => acc ++ nodeStr node ++ " -> ") acc (stack.map tyKey)
      = acc ++ chainPre stack := by
  induction stack with
  | nil =>
    intro acc
    simp [chainPre]
  | cons t rest ih =>
    intro acc
    have hns : nodeStr (tyKey t) = tyStr t := by simp [nodeStr, tyKey]
    simp only [List.map_cons, List.foldl_cons, chainPre, hns]
    rw [ih]
    simp [String.append_assoc]

theorem chainPre_joinArrow : ∀ (stack : List Ty), stack ≠ [] →
    chainPre stack = formatDependencyChain.joinArrow stack ++ " -> " := by
  intro stack
  induction stack with
  | nil =>
    intro h
    exact absurd rfl h
  | cons a rest ih =>
    intro _
    cases rest with
    | nil => simp [chainPre, formatDependencyChain.joinArrow]
    | cons b rest2 =>
      have hne : b :: rest2 ≠ [] := by simp
      have h1 : chainPre (a :: b :: rest2) = tyStr a ++ " -> " ++ chainPre (b :: rest2) := rfl
      have h2 : formatDependencyChain.joinArrow (a :: b :: rest2)
          = tyStr a ++ " -> " ++ formatDependencyChain.joinArrow (b :: rest2) := rfl
      rw [h1, h2, ih hne]
      simp [String.append_assoc]

theorem validationChain_eq_format (t : Ty) (stack : List Ty) (h : stack ≠ []) :
    validationChain (stack.map tyKey) (tyKey t) = formatDependencyChain t stack := by
  have hns : nodeStr (tyKey t) = tyStr t := by simp [nodeStr, tyKey]
  simp only [validationChain, formatDependencyChain, if_neg h, hns]
  rw [chainPre_foldl stack "", String.empty_append, chainPre_joinArrow stack h]

theorem simChildren (C : List (Ty × Registration)) (rfn : ResolveFn) (vfn : ValidateFn)
    (hsim : ∀ (t : Ty) (dc : DC) (visited ip visits : List NodeKey) (stack : List Ty),
      SimInv C dc visited stack → t.isIface = false →
      (∀ k, k ∈ ip ↔ k ∈ stack.map tyKey) →
      ((vfn (tyKey t) visited ip (stack.map tyKey) visits).2 = errView (rfn dc t "" stack).2) ∧
      (∀ v, (rfn dc t "" stack).2 = .ok v →
        SimInv C (rfn dc t "" stack).1 (vfn (tyKey t) visited ip (stack.map tyKey) visits).1.1 stack ∧
        (rfn dc t "" stack).1.inProgress = dc.inProgress ∧
        (vfn (tyKey t) visited ip (stack.map tyKey) visits).1.2.1 = ip)) :
    ∀ (ps : List Ty) (idx : Nat) (dc : DC) (visited ip visits : List NodeKey) (stack : List Ty),
      SimInv C dc visited stack →
      (∀ p ∈ ps, p.isIface = false) →
      (∀ k, k ∈ ip ↔ k ∈ stack.map tyKey) →
      ((validateChildren vfn ps visited ip (stack.map tyKey) visits).2
        = errViewL (resolveParams rfn dc ps idx "" stack).2) ∧
      (∀ vs, (resolveParams rfn dc ps idx "" stack).2 = .ok vs →
        SimInv C (resolveParams rfn dc ps idx "" stack).1
          (validateChildren vfn ps visited ip (stack.map tyKey) visits).1.1 stack ∧
        (resolveParams rfn dc ps idx "" stack).1.inProgress = dc.inProgress ∧
        (validateChildren vfn ps visited ip (stack.map tyKey) visits).1.2.1 = ip) := by
  intro ps
  induction ps with
  | nil =>
    intro idx dc visited ip visits stack hinv hpif hip
    constructor
    · rfl
    · intro vs hvs
      exact ⟨hinv, rfl, rfl⟩
  | cons p rest ihc =>
    intro idx dc visited ip visits stack hinv hpif hip
    have hpfalse : p.isIface = false := hpif p (List.mem_cons_self p rest)
    obtain ⟨hE, hS⟩ := hsim p dc visited ip visits stack hinv hpfalse hip
    simp only [validateChildren, resolveParams]
    simp only [tyKey] at hE hS
    cases hr : rfn dc p "" stack with
    | mk dc1 r =>
      rw [hr] at hE hS
      cases r with
      | error e =>
        cases hv : vfn ⟨p, ""⟩ visited ip (stack.map tyKey) visits with
        | mk vst vres =>
          rw [hv] at hE
          have hvres : vres = some (rootCause e) := hE
          subst hvres
          constructor
          · rfl
          · intro vs hvs
            have hcontra : (Except.error (Err.paramResolve p idx e) : Except Err (List Val))
                = .ok vs := hvs
            simp at hcontra
      | ok v =>
        obtain ⟨hinv1, hipres1, hipv1⟩ := hS v rfl
        cases hv : vfn ⟨p, ""⟩ visited ip (stack.map tyKey) visits with
        | mk vst vres =>
          rw [hv] at hE hinv1 hipv1
          have hvres : vres = none := hE
          subst hvres
          obtain ⟨v1, ip1, vs1⟩ := vst
          have hinv1' : SimInv C dc1 v1 stack := hinv1
          have hipv1' : ip1 = ip := hipv1
          have hipres1' : dc1.inProgress = dc.inProgress := hipres1
          have hip1 : ∀ k, k ∈ ip1 ↔ k ∈ stack.map tyKey := by
            rw [hipv1']
            exact hip
          have hpif' : ∀ q ∈ rest, q.isIface = false :=
            fun q hq => hpif q (List.mem_cons_of_mem _ hq)
          obtain ⟨hE2, hS2⟩ := ihc (idx + 1) dc1 v1 ip1 vs1 stack hinv1' hpif' hip1
          cases hr2 : resolveParams rfn dc1 rest (idx + 1) "" stack with
          | mk dc2 r2 =>
            rw [hr2] at hE2 hS2
            simp only [hr2]
            cases r2 with
            | error e2 =>
              constructor
              · exact hE2
              · intro vs hvs
                have hcontra : (Except.error e2 : Except Err (List Val)) = .ok vs := hvs
                simp at hcontra
            | ok vs2 =>
              constructor
              · exact hE2.trans rfl
              · intro vs hvs
                obtain ⟨hsimR, hipr2, hipv2⟩ := hS2 vs2 rfl
                exact ⟨hsimR, hipr2.trans hipres1', hipv2.trans hipv1'⟩

theorem simNode (dc0 : DC) (hreg : SingletonPlain dc0.constructors) :
    ∀ (fuel : Nat) (t : Ty) (dc : DC) (visited ip visits : List NodeKey) (stack : List Ty),
      SimInv dc0.constructors dc visited stack → t.isIface = false →
      (∀ k, k ∈ ip ↔ k ∈ stack.map tyKey) →
      ((validateNode dc0 fuel (tyKey t) visited ip (stack.map tyKey) visits).2
        = errView (resolveWithScope fuel dc t "" stack).2) ∧
      (∀ v, (resolveWithScope fuel dc t "" stack).2 = .ok v →
        SimInv dc0.constructors (resolveWithScope fuel dc t "" stack).1
          (validateNode dc0 fuel (tyKey t) visited ip (stack.map tyKey) visits).1.1 stack ∧
        (resolveWithScope fuel dc t "" stack).1.inProgress = dc.inProgress ∧
        (validateNode dc0 fuel (tyKey t) visited ip (stack.map tyKey) visits).1.2.1 = ip) := by
  intro fuel
  induction fuel with
  | zero =>
    intro t dc visited ip visits stack hinv hif hip
    constructor
    · rfl
    · intro v hv
      have hcontra : (Except.error Err.outOfFuel : Except Err Val) = .ok v := hv
      simp at hcontra
  | succ f ih =>
    intro t dc visited ip visits stack hinv hif hip
    obtain ⟨hC, hvis, hcr, hips⟩ := hinv
    by_cases hts : t ∈ stack
    · have hkip : (⟨t, ""⟩ : NodeKey) ∈ ip := (hip ⟨t, ""⟩).mpr ((tyKey_mem_map t stack).mpr hts)
      have hne : stack ≠ [] := List.ne_nil_of_mem hts
      have hru : resolveWithScope (f + 1) dc t "" stack
          = (dc, .error (.circular (formatDependencyChain t stack))) := by
        simp [resolveWithScope, hif, hts]
      have hvu : validateNode dc0 (f + 1) (tyKey t) visited ip (stack.map tyKey) visits
          = ((visited, ip, visits),
             some (.circular (validationChain (stack.map tyKey) (tyKey t)))) := by
        simp only [tyKey]
        simp [validateNode, hkip]
      constructor
      · rw [hru, hvu, validationChain_eq_format t stack hne]
        rfl
      · intro v hv
        rw [hru] at hv
        have hcontra : (Except.error (Err.circular (formatDependencyChain t stack))
            : Except Err Val) = .ok v := hv
        simp at hcontra
    · have hkipn : (⟨t, ""⟩ : NodeKey) ∉ ip := fun h =>
        hts ((tyKey_mem_map t stack).mp ((hip ⟨t, ""⟩).mp h))
      cases hct : alookup dc0.constructors t with
      | none =>
        have hdepn : alookup dc.dependencies t = none := by
          cases hd : alookup dc.dependencies t with
          | none => rfl
          | some w =>
            have hx := hcr t (by rw [hd]; rfl)
            rw [hct] at hx
            simp at hx
        have hkv : (⟨t, ""⟩ : NodeKey) ∉ visited := fun h => by
          have hx := (hvis t).mp h
          rw [hdepn] at hx
          simp at hx
        have hcd : alookup dc.constructors t = none := by rw [hC]; exact hct
        have hru : resolveWithScope (f + 1) dc t "" stack = (dc, .error (.noCtor t)) := by
          simp [resolveWithScope, hif, hts, hcd]
        have hvu : validateNode dc0 (f + 1) (tyKey t) visited ip (stack.map tyKey) visits
            = (vFinish ⟨t, ""⟩ (visited, ⟨t, ""⟩ :: ip, visits ++ [⟨t, ""⟩]),
               some (.noCtor t)) := by
          simp only [tyKey]
          simp [validateNode, hkipn, hkv, hif, hct]
        constructor
        · rw [hru, hvu]
          rfl
        · intro v hv
          rw [hru] at hv
          have hcontra : (Except.error (Err.noCtor t) : Except Err Val) = .ok v := hv
          simp at hcontra
      | some reg =>
        have hregmem : (t, reg) ∈ dc0.constructors := alookup_mem _ t reg hct
        obtain ⟨hsc, hplan, hpif⟩ := hreg (t, reg) hregmem
        have hcd : alookup dc.constructors t = some reg := by rw [hC]; exact hct
        have hrw : resolveWithScope (f + 1) dc t "" stack
            = resolveSingleton (resolveWithScope f) dc t reg "" (stack ++ [t]) :=
          resolveWithScope_singleton_eq f dc t reg "" stack hif hts hcd hsc
        cases hdep : alookup dc.dependencies t with
        | some dep =>
          have hkv : (⟨t, ""⟩ : NodeKey) ∈ visited := (hvis t).mpr (by rw [hdep]; rfl)
          have hru : resolveWithScope (f + 1) dc t "" stack = (dc, .ok dep) := by
            rw [hrw]
            simp [resolveSingleton, hdep]
          have hvu : validateNode dc0 (f + 1) (tyKey t) visited ip (stack.map tyKey) visits
              = ((visited, ip, visits), none) := by
            simp only [tyKey]
            simp [validateNode, hkipn, hkv]
          constructor
          · rw [hru, hvu]
            rfl
          · intro v hv
            rw [hru, hvu]
            exact ⟨⟨hC, hvis, hcr, hips⟩, rfl, rfl⟩
        | none =>
          have hkv : (⟨t, ""⟩ : NodeKey) ∉ visited := fun h => by
            have hx := (hvis t).mp h
            rw [hdep] at hx
            simp at hx
          have htip : t ∉ dc.inProgress := fun h => hts (hips t h)
          have hinvm : SimInv dc0.constructors { dc with inProgress := t :: dc.inProgress }
              visited (stack ++ [t]) := by
            refine ⟨hC, hvis, hcr, ?_⟩
            intro u hu
            rcases List.mem_cons.mp hu with h | h
            · rw [h]
              exact List.mem_append_right _ (List.mem_singleton.mpr rfl)
            · exact List.mem_append_left _ (hips u h)
          have hipm : ∀ k, k ∈ (⟨t, ""⟩ : NodeKey) :: ip ↔ k ∈ (stack ++ [t]).map tyKey := by
            intro k
            constructor
            · intro h
              rcases List.mem_cons.mp h with h' | h'
              · rw [h']
                exact (tyKey_mem_map t (stack ++ [t])).mpr
                  (List.mem_append_right _ (List.mem_singleton.mpr rfl))
              · rw [List.map_append]
                exact List.mem_append_left _ ((hip k).mp h')
            · intro h
              rw [List.map_append] at h
              rcases List.mem_append.mp h with h' | h'
              · exact List.mem_cons_of_mem _ ((hip k).mpr h')
              · have hk : k = tyKey t := by simpa using h'
                rw [hk]
                exact List.mem_cons_self _ _
          obtain ⟨hcE, hcS⟩ := simChildren dc0.constructors (resolveWithScope f)
            (validateNode dc0 f)
            (fun u du vu iu wu su hinvu hifu hipu => ih u du vu iu wu su hinvu hifu hipu)
            reg.paramTypes 1 { dc with inProgress := t :: dc.inProgress } visited
            ((⟨t, ""⟩ : NodeKey) :: ip) (visits ++ [(⟨t, ""⟩ : NodeKey)]) (stack ++ [t])
            hinvm hpif hipm
          simp only [tyKey, List.map_append, List.map_cons, List.map_nil] at hcE hcS
          rw [hrw]
          simp only [tyKey]
          simp [validateNode, hkipn, hkv, hif, hct, vFinish]
          simp only [resolveSingleton, hdep, if_neg htip, invokeCtor]
          cases hps : resolveParams (resolveWithScope f) { dc with inProgress := t :: dc.inProgress }
              reg.paramTypes 1 "" (stack ++ [t]) with
          | mk dcp r =>
            rw [hps] at hcE hcS
            cases r with
            | error e =>
              constructor
              · exact hcE.trans rfl
              · intro v hv
                have hcontra : (Except.error e : Except Err Val) = .ok v := hv
                simp at hcontra
            | ok args =>
              obtain ⟨hsimC, hipresC, hipvC⟩ := hcS args rfl
              obtain ⟨hCc, hvisC, hcrC, hipsC⟩ := hsimC
              have hipresC' : dcp.inProgress = t :: dc.inProgress := hipresC
              have hFin : dcp.inProgress.erase t = dc.inProgress := by
                rw [hipresC']
                exact List.erase_cons_head t dc.inProgress
              have hlookup_ne : ∀ u : Ty, ¬ u = t →
                  alookup (aupsert dcp.dependencies t (Val.obj t dcp.fresh reg.cid)) u
                    = alookup dcp.dependencies u :=
                fun u hu => alookup_aupsert_ne _ _ _ _ hu
              simp only [ctorCall_plan_nil dcp t reg hplan]
              constructor
              · exact hcE.trans rfl
              · intro v hv
                refine ⟨⟨?_, ?_, ?_, ?_⟩, ?_, ?_⟩
                · exact hCc
                · intro u
                  by_cases hu : u = t
                  · subst hu
                    constructor
                    · intro _
                      have hx : (alookup (aupsert dcp.dependencies u (Val.obj u dcp.fresh reg.cid)) u).isSome
                          = true := by rw [alookup_aupsert_self]; rfl
                      exact hx
                    · intro _
                      exact List.mem_cons_self _ _
                  · have hne2 : tyKey u ≠ tyKey t := fun hh => hu (tyKey_inj u t hh)
                    constructor
                    · intro h
                      rcases List.mem_cons.mp h with h' | h'
                      · exact absurd h' hne2
                      · have hx := (hvisC u).mp h'
                        have hy : (alookup (aupsert dcp.dependencies t (Val.obj t dcp.fresh reg.cid)) u).isSome
                            = true := by rw [hlookup_ne u hu]; exact hx
                        exact hy
                    · intro h
                      have hx : (alookup (aupsert dcp.dependencies t (Val.obj t dcp.fresh reg.cid)) u).isSome
                          = true := h
                      rw [hlookup_ne u hu] at hx
                      exact List.mem_cons_of_mem _ ((hvisC u).mpr hx)
                · intro u hu2
                  by_cases hu : u = t
                  · subst hu
                    rw [hct]
                    rfl
                  · have hx : (alookup (aupsert dcp.dependencies t (Val.obj t dcp.fresh reg.cid)) u).isSome
                        = true := hu2
                    rw [hlookup_ne u hu] at hx
                    exact hcrC u hx
                · intro u hu3
                  have hu4 : u ∈ dcp.inProgress.erase t := hu3
                  rw [hFin] at hu4
                  exact hips u hu4
                · exact hFin
                · have hipvC' : (validateChildren (validateNode dc0 f) reg.paramTypes visited
                      ((⟨t, ""⟩ : NodeKey) :: ip) (List.map tyKey stack ++ [(⟨t, ""⟩ : NodeKey)])
                      (visits ++ [(⟨t, ""⟩ : NodeKey)])).1.2.1 = (⟨t, ""⟩ : NodeKey) :: ip := hipvC
                  rw [hipvC']
                  exact List.erase_cons_head _ _

/-- C2 (amended agreement half): on a fresh container whose registry is all
plain unnamed Singletons (constructors that always succeed, concrete
parameter types), the validation walk started at a root reports exactly the
root cause the resolver reports for the same root: success matches success,
and every failure — in particular a detected circular dependency with its
rendered chain — matches the resolver's failure once the resolver's
parameter-resolution wrappers are stripped. -/
theorem validator_reports_resolver_error (fuel : Nat) (dc0 : DC) (t : Ty)
    (hreg : SingletonPlain dc0.constructors)
    (hdeps : dc0.dependencies = []) (hipr : dc0.inProgress = [])
    (hif : t.isIface = false) :
    (validateNode dc0 fuel (tyKey t) [] [] [] []).2
      = errView (containerResolve fuel dc0 t).2 := by
  have hinv : SimInv dc0.constructors dc0 [] [] := by
    refine ⟨rfl, ?_, ?_, ?_⟩
    · intro u
      rw [hdeps]
      simp [alookup]
    · intro u hu
      rw [hdeps] at hu
      simp [alookup] at hu
    · intro u hu
      rw [hipr] at hu
      exact absurd hu (List.not_mem_nil u)
  have hmem : ∀ k : NodeKey, k ∈ ([] : List NodeKey) ↔ k ∈ ([] : List Ty).map tyKey := by
    intro k
    simp
  exact (simNode dc0 hreg fuel t dc0 [] [] [] [] hinv hif hmem).1

theorem validator_reports_resolver_error_witness :
    SingletonPlain dcC2.constructors ∧
    ((validateNode dcC2 10 (tyKey ⟨"A", false⟩) [] [] [] []).2
      = errView (containerResolve 10 dcC2 ⟨"A", false⟩).2) :=
  ⟨by unfold SingletonPlain; decide,
   validator_reports_resolver_error 10 dcC2 ⟨"A", false⟩ (by unfold SingletonPlain; decide) rfl rfl rfl⟩

/-- C2 counterexample: resolving the cyclic registry A -> B -> C -> B from
root A reports the cycle chain "A -> B -> C -> B" — the whole resolution
stack from the requested root — not the chain "B -> C -> B" that starts at
the first occurrence of the repeated type, contradicting the claim that the
reported chain is exactly the offending cycle. -/
theorem circular_chain_root_counterexample :
    ∃ e, (containerResolve 10 dcC2 ⟨"A", false⟩).2 = .error e ∧
      rootCause e = .circular "A -> B -> C -> B" ∧
      rootCause e ≠ .circular "B -> C -> B" := by
  refine ⟨_, rfl, rfl, ?_⟩
  decide
